import Mathlib

/-!
# Verification of the lean-cli configuration resolution engine

Shallow embedding of the configuration-resolution core of the repository:

* `src/lean/models/json_module.py` — `JsonModule._check_if_config_passes_filters`,
  `get_config_value_from_name`, `get_settings`, `config_build`, `get_default`;
* `src/lean/components/util/json_modules_handler.py` — `_update_settings`.

Python runtime values that flow through the resolver (strings, `None`,
dicts, lists) are modelled by the inductive type `Value`; Python dicts are
association lists with first-match lookup and replace-or-append insertion
(Python dicts have unique keys).  Exceptions are modelled with `Except`:
code points where the source wraps work in `try`/`except` are embedded as
total functions that pattern-match on the `Except` result exactly where the
source catches.
-/

set_option autoImplicit false

namespace LeanCli

/-- A Python runtime value as used by the configuration resolver: `None`,
a string, a dict with string keys, or a list. -/
inductive Value where
  | vnone : Value
  | vstr : String → Value
  | vdict : List (String × Value) → Value
  | vlist : List Value → Value

mutual

/-- Structural equality on `Value` (Python `==` on these runtime values),
written by hand because `deriving DecidableEq` does not handle the nested
occurrence of `Value` under `List`. -/
def decEqValue : (a b : Value) → Decidable (a = b)
  | .vnone, .vnone => .isTrue rfl
  | .vstr s, .vstr t =>
    match decEq s t with
    | .isTrue h => .isTrue (by rw [h])
    | .isFalse h => .isFalse (fun e => h (by cases e; rfl))
  | .vdict a, .vdict b =>
    match decEqDictList a b with
    | .isTrue h => .isTrue (by rw [h])
    | .isFalse h => .isFalse (fun e => h (by cases e; rfl))
  | .vlist a, .vlist b =>
    match decEqValueList a b with
    | .isTrue h => .isTrue (by rw [h])
    | .isFalse h => .isFalse (fun e => h (by cases e; rfl))
  | .vnone, .vstr _ => .isFalse nofun
  | .vnone, .vdict _ => .isFalse nofun
  | .vnone, .vlist _ => .isFalse nofun
  | .vstr _, .vnone => .isFalse nofun
  | .vstr _, .vdict _ => .isFalse nofun
  | .vstr _, .vlist _ => .isFalse nofun
  | .vdict _, .vnone => .isFalse nofun
  | .vdict _, .vstr _ => .isFalse nofun
  | .vdict _, .vlist _ => .isFalse nofun
  | .vlist _, .vnone => .isFalse nofun
  | .vlist _, .vstr _ => .isFalse nofun
  | .vlist _, .vdict _ => .isFalse nofun

def decEqDictList : (a b : List (String × Value)) → Decidable (a = b)
  | [], [] => .isTrue rfl
  | [], _ :: _ => .isFalse nofun
  | _ :: _, [] => .isFalse nofun
  | (k, v) :: r, (k', v') :: r' =>
    match decEq k k', decEqValue v v', decEqDictList r r' with
    | .isTrue h1, .isTrue h2, .isTrue h3 => .isTrue (by rw [h1, h2, h3])
    | .isFalse h1, _, _ => .isFalse (fun e => h1 (by cases e; rfl))
    | _, .isFalse h2, _ => .isFalse (fun e => h2 (by cases e; rfl))
    | _, _, .isFalse h3 => .isFalse (fun e => h3 (by cases e; rfl))

def decEqValueList : (a b : List Value) → Decidable (a = b)
  | [], [] => .isTrue rfl
  | [], _ :: _ => .isFalse nofun
  | _ :: _, [] => .isFalse nofun
  | v :: r, v' :: r' =>
    match decEqValue v v', decEqValueList r r' with
    | .isTrue h2, .isTrue h3 => .isTrue (by rw [h2, h3])
    | .isFalse h2, _ => .isFalse (fun e => h2 (by cases e; rfl))
    | _, .isFalse h3 => .isFalse (fun e => h3 (by cases e; rfl))

end

instance : DecidableEq Value := decEqValue

/-- Python truthiness (`bool(x)`) for the values above: `None`, the empty
string, the empty dict and the empty list are falsy. -/
def Value.truthy : Value → Bool
  | .vnone => false
  | .vstr s => !(s == "")
  | .vdict kvs => !kvs.isEmpty
  | .vlist vs => !vs.isEmpty

/-- First-match lookup in an association list (Python `d[k]` / `k in d` on a
dict with unique keys). -/
def alFind {α : Type} : List (String × α) → String → Option α
  | [], _ => none
  | kv :: rest, k => if kv.1 == k then some kv.2 else alFind rest k

/-- Python dict assignment `d[k] = v`: replace the binding if the key is
present (keeping its position), otherwise append. -/
def alInsert {α : Type} : List (String × α) → String → α → List (String × α)
  | [], k, v => [(k, v)]
  | kv :: rest, k, v => if kv.1 == k then (k, v) :: rest else kv :: alInsert rest k v

/-- Characters stripped by Python `str.strip()` (the ASCII whitespace
actually occurring in configuration values). -/
def isSpaceChar (c : Char) : Bool :=
  c == ' ' || c == '\t' || c == '\n' || c == '\r'

/-- Python `str.strip()`. -/
def pyStrip (s : String) : String :=
  String.mk (((s.data.dropWhile isSpaceChar).reverse.dropWhile isSpaceChar).reverse)

/-- Left-to-right, non-overlapping replacement of `pat` by `repl` on char
lists, fuelled so that it is structurally recursive (the fuel is the input
length, which always suffices since each step consumes at least one
character for non-empty `pat`). -/
def replaceAux (pat repl : List Char) : Nat → List Char → List Char
  | 0, l => l
  | _ + 1, [] => []
  | fuel + 1, c :: rest =>
    if pat ≠ [] && pat.isPrefixOf (c :: rest) then
      repl ++ replaceAux pat repl fuel ((c :: rest).drop pat.length)
    else
      c :: replaceAux pat repl fuel rest

/-- Python `s.replace(pat, repl)`. -/
def replaceStr (pat repl s : String) : String :=
  String.mk (replaceAux pat.data repl.data s.data.length s.data)

/-- `convert_lean_key_to_variable`: hyphens become underscores. -/
def varKey (leanKey : String) : String := replaceStr "-" "_" leanKey

/-- Splits a char list on a separator character (Python `s.split(",")` for a
one-character separator). -/
def splitOnChar (sep : Char) : List Char → List (List Char)
  | [] => [[]]
  | c :: rest =>
    let r := splitOnChar sep rest
    if c == sep then [] :: r
    else match r with
      | [] => [[c]]
      | g :: gs => (c :: g) :: gs

/-- Python `s.split(",")` returning strings. -/
def pySplitComma (s : String) : List String :=
  (splitOnChar ',' s.data).map String.mk

example : pySplitComma "A, B" = ["A", " B"] := by decide
example : pyStrip "  A " = "A" := by decide
example : replaceStr "-" "_" "api-key" = "api_key" := by decide
example : replaceStr "\\n" "\n" "a\\nb" = "a\nb" := by decide
example : replaceStr "\\" "/" "a\\b" = "a/b" := by decide
example : alFind [("a", Value.vstr "x")] "a" = some (Value.vstr "x") := by decide

/-! ## Data model: configuration entries and modules

The entry type hierarchy lives in `lean/models/configuration.py`, which is
not part of this repository's sources; `json_module.py` only reads the
attributes `_id`, `_optional`, `_input_default`, `_filter._conditions`,
`_value`, `_is_conditional`, `_value_options` and dispatches on the entry's
class (`InternalInputUserInput`, `AuthConfiguration`,
`BrokerageEnvConfiguration`, `PathParameterUserInput`).  Those attributes
are modelled as fields; a condition's `check` predicate is an opaque
boolean function, exactly as `json_module.py` treats it. -/

/-- A filter / option condition: `_dependent_config_id` names the entry (or
the module-type / platform sentinel) whose value is inspected, and `check`
is the condition's predicate (opaque to `json_module.py`). -/
structure Condition where
  dependentConfigId : String
  check : Value → Bool

/-- One `(condition, candidate-value)` pair of a conditional entry
(`option._condition`, `option._value`). -/
structure ValueOption where
  condition : Condition
  value : Value

/-- The entry's Python class together with the conditional data:
`internalInput isConditional valueOptions` models `InternalInputUserInput`
(with its `_is_conditional` flag and `_value_options`); the other
constructors model the remaining classes dispatched on in
`json_module.py`. -/
inductive ConfigKind where
  | internalInput : Bool → List ValueOption → ConfigKind
  | auth : ConfigKind
  | brokerageEnv : ConfigKind
  | pathParameter : ConfigKind
  | plain : ConfigKind

/-- One configuration entry (`Configuration` object): id, class, `_optional`,
`_input_default` (`Value.vnone` models Python `None`), the filter's
condition list and the mutable `_value` slot (`Value.vnone` = unset). -/
structure Configuration where
  id : String
  kind : ConfigKind
  optional : Bool
  inputDefault : Value
  filterConditions : List Condition
  value : Value

/-- A `JsonModule`: identity plus the ordered entry list (`_lean_configs`,
already in the order produced by `sort_configs`). -/
structure JsonModule where
  id : String
  displayName : String
  moduleType : String
  platform : String
  leanConfigs : List Configuration

/-- Modelled from the spec: the sentinel id naming the module's type in a
filter condition (`MODULE_TYPE` in `lean/constants.py`, which is not under
`src/`; the spec says "if the condition's dependent id names the module's
type or platform, use that identity value").  Only its distinctness as a
key matters here. -/
def MODULE_TYPE : String := "module-type"

/-- Modelled from the spec: the sentinel id naming the module's platform
(`MODULE_PLATFORM` in `lean/constants.py`, not under `src/`). -/
def MODULE_PLATFORM : String := "module-platform"

/-- `get_config_value_from_name`: `[idx] = [i for i in range(...) if
self._lean_configs[i]._id == target_name]` raises `ValueError` unless
exactly one entry matches, then returns that entry's `_value`. -/
def getConfigValueFromName (m : JsonModule) (targetName : String) : Except Unit Value :=
  match m.leanConfigs.filter (fun c => c.id == targetName) with
  | [c] => .ok c.value
  | _ => .error ()

/-- Target-value selection for one filter condition inside
`_check_if_config_passes_filters`: the module type / platform sentinels use
the module identity, otherwise (unless `all_for_platform_type`, which
`continue`s — modelled as `none`) the dependent entry's current value is
looked up, propagating the lookup failure. -/
def condTarget (m : JsonModule) (allForPlatformType : Bool) (cond : Condition) :
    Except Unit (Option Value) :=
  if cond.dependentConfigId == MODULE_TYPE then
    .ok (some (.vstr m.moduleType))
  else if cond.dependentConfigId == MODULE_PLATFORM then
    .ok (some (.vstr m.platform))
  else if allForPlatformType then
    .ok none
  else
    (getConfigValueFromName m cond.dependentConfigId).map some

/-- The condition loop of `_check_if_config_passes_filters`:
`if not target_value: return False`, `elif isinstance(target_value, dict):
return all(condition.check(v) for v in target_value.values())` (note the
early `return` — remaining conditions are not evaluated), `elif not
condition.check(target_value): return False`. -/
def checkFiltersAux (m : JsonModule) (allForPlatformType : Bool) :
    List Condition → Except Unit Bool
  | [] => .ok true
  | cond :: rest =>
    match condTarget m allForPlatformType cond with
    | .error e => .error e
    | .ok none => checkFiltersAux m allForPlatformType rest
    | .ok (some tv) =>
      if !tv.truthy then .ok false
      else
        match tv with
        | .vdict kvs => .ok (kvs.all fun kv => cond.check kv.2)
        | _ =>
          if !cond.check tv then .ok false
          else checkFiltersAux m allForPlatformType rest

/-- `_check_if_config_passes_filters`. -/
def checkIfConfigPassesFilters (m : JsonModule) (config : Configuration)
    (allForPlatformType : Bool) : Except Unit Bool :=
  checkFiltersAux m allForPlatformType config.filterConditions

/-! ## Persisted defaults: `get_default` -/

/-- Python `key in container` for the values reached by `get_default`:
dict-key membership, substring test on strings, element membership on
lists, `TypeError` on `None`. -/
def pyContains (k : String) : Value → Except Unit Bool
  | .vdict kvs => .ok (alFind kvs k).isSome
  | .vstr s => .ok (if k == "" then true else (s.splitOn k).length > 1)
  | .vlist vs => .ok (vs.any fun v => match v with | .vstr t => t == k | _ => false)
  | .vnone => .error ()

/-- Python `container[key]` for the same values: dict indexing
(`KeyError` when absent), `TypeError` otherwise. -/
def pyIndex (v : Value) (k : String) : Except Unit Value :=
  match v with
  | .vdict kvs =>
    match alFind kvs k with
    | some w => .ok w
    | none => .error ()
  | _ => .error ()

/-- Truthiness of the `environment_name` argument (`None` or `""` are
falsy). -/
def envTruthy : Option String → Bool
  | none => false
  | some s => !(s == "")

/-- `get_default`: in an environment-aware lean config, prefer
`lean_config["environments"][environment_name][key]` (guarded by the chain
of `in` tests, any of which can raise for malformed values), else fall back
to `lean_config[key]`, else `None`.  `lean_config = None` yields `None`. -/
def getDefault (leanConfig : Option (List (String × Value))) (key : String)
    (environmentName : Option String) : Except Unit Value :=
  match leanConfig with
  | none => .ok .vnone
  | some lc =>
    let fallbackElif : Except Unit Value :=
      .ok ((alFind lc key).getD .vnone)
    if envTruthy environmentName then
      match alFind lc "environments" with
      | none => fallbackElif
      | some envsV =>
        let envName := environmentName.getD ""
        match pyContains envName envsV with
        | .error e => .error e
        | .ok false => fallbackElif
        | .ok true =>
          match pyIndex envsV envName with
          | .error e => .error e
          | .ok blk =>
            match pyContains key blk with
            | .error e => .error e
            | .ok false => fallbackElif
            | .ok true => pyIndex blk key
    else fallbackElif

/-- `get_default` as observed by its callers in `json_module.py`, which all
wrap it in `try`/`except` and treat a failure as "no value" (`None`). -/
def getDefaultCaught (leanConfig : Option (List (String × Value))) (key : String)
    (environmentName : Option String) : Value :=
  match getDefault leanConfig key environmentName with
  | .ok v => v
  | .error _ => .vnone

/-! ## `config_build` -/

/-- `_normalized_options_map`: every provided key is inserted as given and,
when it contains a hyphen (resp. underscore), additionally under the
underscored (resp. hyphenated) spelling, in Python dict insertion order. -/
def normalizedOptionsMap (opts : List (String × Value)) : List (String × Value) :=
  opts.foldl
    (fun out kv =>
      let out := alInsert out kv.1 kv.2
      let out :=
        if kv.1.data.contains '-' then alInsert out (replaceStr "-" "_" kv.1) kv.2 else out
      if kv.1.data.contains '_' then alInsert out (replaceStr "_" "-" kv.1) kv.2 else out)
    []

/-- Replaces the `_value` slot of the `i`-th entry (the in-place
`configuration._value = user_choice` of the entry loop). -/
def setValueList : List Configuration → Nat → Value → List Configuration
  | [], _, _ => []
  | c :: rest, 0, v => { c with value := v } :: rest
  | c :: rest, n + 1, v => c :: setValueList rest n v

/-- `setValueList` lifted to the module. -/
def setValueAt (m : JsonModule) (i : Nat) (v : Value) : JsonModule :=
  { m with leanConfigs := setValueList m.leanConfigs i v }

/-- The prefill pass at the start of `config_build`: every entry whose
`_value` is `None` gets the (exception-swallowed) `get_default` value. -/
def prefillConfigs (m : JsonModule) (leanConfig : Option (List (String × Value)))
    (environmentName : Option String) : JsonModule :=
  { m with
    leanConfigs :=
      m.leanConfigs.map fun c =>
        match c.value with
        | .vnone => { c with value := getDefaultCaught leanConfig c.id environmentName }
        | _ => c }

/-- CLI-channel lookup: `key in opts and opts[key] is not None`. -/
def lookupNonNone (d : List (String × Value)) (k : String) : Option Value :=
  match alFind d k with
  | some .vnone => none
  | some v => some v
  | none => none

/-- Value resolution for one entry of `config_build`: CLI options in
variable then lean-key spelling (skipping `None` values), then properties
by presence (in the same two spellings, `None` and empty values included),
then the caught `get_default`. -/
def resolveSources (upoN propsN : List (String × Value))
    (leanConfig : Option (List (String × Value))) (environmentName : Option String)
    (c : Configuration) : Value :=
  let leanKey := c.id
  let vk := varKey leanKey
  match lookupNonNone upoN vk with
  | some v => v
  | none =>
    match lookupNonNone upoN leanKey with
    | some v => v
    | none =>
      match alFind propsN vk with
      | some v => v
      | none =>
        match alFind propsN leanKey with
        | some v => v
        | none => getDefaultCaught leanConfig leanKey environmentName

/-- The emptiness rule: `user_choice is None or (isinstance(user_choice,
str) and user_choice.strip() == "")`. -/
def isEmptyVal : Value → Bool
  | .vnone => true
  | .vstr s => pyStrip s == ""
  | _ => false

/-- `lean_key in d or var_key in d` (presence only, in that order). -/
def presentEither (d : List (String × Value)) (leanKey : String) : Bool :=
  (alFind d leanKey).isSome || (alFind d (varKey leanKey)).isSome

/-- The per-entry body of the `config_build` loop after the filter check:
returns the value stored into the entry's `_value` slot and whether the
entry was appended to `missing_options`.  `promptFn` models
`ask_user_for_input` (the `_save_property` side effect has no bearing on
the returned module). -/
def resolveEntry (upoN propsN : List (String × Value))
    (leanConfig : Option (List (String × Value))) (environmentName : Option String)
    (interactive : Bool) (promptFn : Configuration → Value)
    (c : Configuration) : Value × Bool :=
  let uc := resolveSources upoN propsN leanConfig environmentName c
  if isEmptyVal uc then
    if interactive then (promptFn c, false)
    else if c.optional then
      (match c.inputDefault with
       | .vnone => uc
       | d => d, false)
    else
      let presProps := presentEither propsN c.id
      let presUpo := presentEither upoN c.id
      if presProps || presUpo then
        (match uc with
         | .vnone => .vstr ""
         | v => v, false)
      else (uc, true)
  else (uc, false)

/-- The entry loop of `config_build`, fuelled by the (invariant) length of
the entry list so that it is structurally recursive.  A filter-check lookup
failure propagates (there is no `try` around
`self._check_if_config_passes_filters` in `config_build`); inactive entries
are skipped; active entries are resolved and their `_value` slot updated
before the next entry is considered. -/
def configBuildLoop (promptFn : Configuration → Value)
    (upoN propsN : List (String × Value)) (leanConfig : Option (List (String × Value)))
    (environmentName : Option String) (interactive : Bool) :
    Nat → JsonModule → Nat → List String → Except Unit (JsonModule × List String)
  | 0, st, _, missing => .ok (st, missing)
  | fuel + 1, st, i, missing =>
    match st.leanConfigs[i]? with
    | none => .ok (st, missing)
    | some c =>
      match checkIfConfigPassesFilters st c false with
      | .error e => .error e
      | .ok false =>
        configBuildLoop promptFn upoN propsN leanConfig environmentName interactive
          fuel st (i + 1) missing
      | .ok true =>
        let r := resolveEntry upoN propsN leanConfig environmentName interactive promptFn c
        configBuildLoop promptFn upoN propsN leanConfig environmentName interactive
          fuel (setValueAt st i r.1) (i + 1)
          (missing ++ if r.2 then ["--" ++ c.id] else [])

/-- The two failure modes of `config_build`: the uncaught `ValueError` from
a dependent-entry lookup inside a filter check, and the aggregated
`RuntimeError` carrying the missing option flags. -/
inductive BuildError where
  | lookupFailure : BuildError
  | missingOptions : List String → BuildError
deriving DecidableEq, Repr

/-- The message of the aggregated `RuntimeError` raised by `config_build`.
-/
def missingOptionsMessage (flags : List String) : String :=
  "You are missing the following option" ++ (if flags.length > 1 then "s" else "")
    ++ ": " ++ String.intercalate ", " flags

/-- `config_build`: normalize both option channels, prefill unset `_value`
slots from the persisted configuration, run the entry loop, and raise the
aggregated missing-options failure iff the collected list is non-empty. -/
def configBuild (m : JsonModule) (leanConfig : Option (List (String × Value)))
    (interactive : Bool) (userProvidedOptions properties : List (String × Value))
    (environmentName : Option String) (promptFn : Configuration → Value) :
    Except BuildError JsonModule :=
  let upoN := normalizedOptionsMap userProvidedOptions
  let propsN := normalizedOptionsMap properties
  let m0 := prefillConfigs m leanConfig environmentName
  match configBuildLoop promptFn upoN propsN leanConfig environmentName interactive
      m0.leanConfigs.length m0 0 [] with
  | .error _ => .error .lookupFailure
  | .ok (st, missing) =>
    if missing.isEmpty then .ok st else .error (.missingOptions missing)

/-- Projection used in closed statements: the missing-option flags of a
failed build. -/
def buildMissing : Except BuildError JsonModule → Option (List String)
  | .error (.missingOptions l) => some l
  | _ => none

/-- Projection used in closed statements: the resolved `_value` slots of a
successful build. -/
def buildOkValues : Except BuildError JsonModule → Option (List Value)
  | .ok m => some (m.leanConfigs.map (fun c => c.value))
  | _ => none

/-! ## `get_settings`

`get_settings` reads `lean_config`, `environment_name` and `logger` from
`globals()`.  The only module-level global of `json_module.py` is
`_logged_messages`, so all three are always `None`: the best-effort prefill
block is dead (its guard requires `lean_config is not None and logger is
not None`) and all warnings are surfaced through the `print` fallback,
which is modelled as the returned warning list. -/

mutual

/-- Python `repr` for the embedded values (used by `str` on non-string
values). -/
def Value.pyRepr : Value → String
  | .vnone => "None"
  | .vstr s => "'" ++ s ++ "'"
  | .vdict kvs => "\x7b" ++ String.intercalate ", " (pyReprDict kvs) ++ "\x7d"
  | .vlist vs => "[" ++ String.intercalate ", " (pyReprList vs) ++ "]"

def pyReprDict : List (String × Value) → List String
  | [] => []
  | (k, v) :: rest => ("'" ++ k ++ "': " ++ v.pyRepr) :: pyReprDict rest

def pyReprList : List Value → List String
  | [] => []
  | v :: rest => v.pyRepr :: pyReprList rest

end

/-- Python `str(value)`: identity on strings, `repr`-style rendering
otherwise. -/
def Value.pyStr : Value → String
  | .vstr s => s
  | v => v.pyRepr

/-- The per-value normalization in the settings map:
`.replace("\\n", "\n").replace("\\", "/")`. -/
def normalizeSettingStr (s : String) : String :=
  replaceStr "\\" "/" (replaceStr "\\n" "\n" s)

/-- The `print` fallback warning for a conditional entry with no matching
option. -/
def noMatchWarning (id : String) : String :=
  "WARNING: No condition matched among present options for \"" ++ id
    ++ "\". Treating as explicitly empty to allow non-interactive execution."

/-- The `print` fallback warning when building the settings entry fails
(the only failable step in the embedded loop is the filter check's
dependent-entry lookup). -/
def skipWarning (id : String) : String :=
  "WARNING: Skipping config '" ++ id ++ "' due to error."

/-- Dependent-value lookup during conditional evaluation in `get_settings`:
`get_config_value_from_name` with the exception handler that falls back to
`getattr(next((c for c in self._lean_configs if c._id == dep_id), None),
"_value", None)`. -/
def evalOptionTarget (m : JsonModule) (depId : String) : Value :=
  match getConfigValueFromName m depId with
  | .ok v => v
  | .error _ =>
    match m.leanConfigs.find? (fun c => c.id == depId) with
    | some c => c.value
    | none => .vnone

/-- First-match scan over a conditional entry's `_value_options`. -/
def findMatchedOption (m : JsonModule) : List ValueOption → Option Value
  | [] => none
  | opt :: rest =>
    if opt.condition.check (evalOptionTarget m opt.condition.dependentConfigId) then
      some opt.value
    else findMatchedOption m rest

/-- The body of one iteration of the conditional-evaluation loop of
`get_settings` for entry `c` at index `i`: only a `type(config) is
InternalInputUserInput` entry with `_is_conditional` is touched; a match
stores the option's value, no match warns and stores `"" if config._value
is None else config._value`. -/
def condStepEntry (m : JsonModule) (i : Nat) (c : Configuration) :
    JsonModule × List String :=
  match c.kind with
  | .internalInput true opts =>
    match findMatchedOption m opts with
    | some v => (setValueAt m i v, [])
    | none =>
      (setValueAt m i (match c.value with | .vnone => .vstr "" | v => v),
       [noMatchWarning c.id])
  | _ => (m, [])

/-- One iteration of the conditional-evaluation loop at index `i`. -/
def condStep (m : JsonModule) (i : Nat) : JsonModule × List String :=
  match m.leanConfigs[i]? with
  | none => (m, [])
  | some c => condStepEntry m i c

/-- The conditional-evaluation loop, fuelled (the entry count is invariant
under `condStep`). -/
def condPass : Nat → JsonModule → Nat → JsonModule × List String
  | 0, m, _ => (m, [])
  | fuel + 1, m, i =>
    let s := condStep m i
    let r := condPass fuel s.1 (i + 1)
    (r.1, s.2 ++ r.2)

/-- One iteration of the settings-building loop of `get_settings`: an entry
that passes its filters contributes either its auth-bundle sub-keys (when
it is an `AuthConfiguration` holding a dict) or its normalized stringified
value; a per-entry failure (the filter check's lookup error) is caught,
warned about and skipped. -/
def settingsStep (m : JsonModule) (acc : List (String × String) × List String)
    (c : Configuration) : List (String × String) × List String :=
  match checkIfConfigPassesFilters m c false with
  | .error _ => (acc.1, acc.2 ++ [skipWarning c.id])
  | .ok false => acc
  | .ok true =>
    match c.kind, c.value with
    | .auth, .vdict kvs =>
      (kvs.foldl (fun s kv => alInsert s kv.1 kv.2.pyStr) acc.1, acc.2)
    | _, _ =>
      (alInsert acc.1 c.id
        (normalizeSettingStr (match c.value with | .vnone => "" | v => v.pyStr)),
       acc.2)

/-- The settings-building loop of `get_settings`, starting from
`{"id": self._id}`. -/
def buildSettings (m : JsonModule) : List (String × String) × List String :=
  m.leanConfigs.foldl (settingsStep m) ([("id", m.id)], [])

/-- The result of `get_settings`: the module with its mutated `_value`
slots, the settings map, and the surfaced warnings in order. -/
structure SettingsResult where
  module : JsonModule
  settings : List (String × String)
  warnings : List String

/-- `get_settings`. -/
def getSettings (m : JsonModule) : SettingsResult :=
  let cp := condPass m.leanConfigs.length m 0
  let bs := buildSettings cp.1
  { module := cp.1, settings := bs.1, warnings := cp.2 ++ bs.2 }

/-! ## The settings merger: `_update_settings`

`json.loads` is an external collaborator; the merger is parameterized by a
`loads : String → Option Value` function (`none` models a parse failure).
`jsonLoadsModel` below is a concrete instance for the JSON fragment
actually exercised (arrays of double-quoted strings and bare string
scalars), used to close witness statements. -/

/-- Parses a JSON double-quoted string without escapes. -/
def parseJsonStr (l : List Char) : Option String :=
  match l with
  | '"' :: rest =>
    if rest.getLast? = some '"' then
      let inner := rest.dropLast
      if inner.contains '"' || inner.contains '\\' then none
      else some (String.mk inner)
    else none
  | _ => none

/-- A concrete `json.loads` for top-level arrays of double-quoted strings
and bare string scalars; everything else is a parse failure.  (The real
`json.loads` accepts more — numbers, nested structures — but none of the
settled statements depend on those inputs.) -/
def jsonLoadsModel (s : String) : Option Value :=
  let t := (pyStrip s).data
  match t with
  | '[' :: rest =>
    if rest.getLast? = some ']' then
      let inner := rest.dropLast
      if (String.mk inner |> pyStrip) = "" then some (.vlist [])
      else
        match (splitOnChar ',' inner).mapM (fun g => parseJsonStr (pyStrip (String.mk g)).data) with
        | some strs => some (.vlist (strs.map Value.vstr))
        | none => none
    else none
  | _ => (parseJsonStr t).map Value.vstr

/-- Python `list(dict.fromkeys(l).keys())` (first-occurrence
deduplication), written with an explicit seen-set so that it is
structurally recursive. -/
def dedupAux (seen : List Value) : List Value → List Value
  | [] => []
  | x :: xs => if seen.contains x then dedupAux seen xs else x :: dedupAux (x :: seen) xs

/-- First-occurrence deduplication of a merged list. -/
def dedupKeepFirst (l : List Value) : List Value := dedupAux [] l

/-- The keys `_update_settings` treats as list-like. -/
def listLikeKeys : List String := ["data-queue-handler"]

/-- The override parser of the list-merge branch: Python lists pass
through; empty-ish strings (`""`, `"None"`, `"null"` after stripping)
become `[]`; other strings go through `loads` (wrapping a non-list result),
falling back to a comma split of trimmed non-empty tokens, else a
one-element list; non-string non-list values are coerced with `list(...)`
(dict iterates its keys) or wrapped on failure (`list(None)` raises). -/
def parseOverride (loads : String → Option Value) (v : Value) : List Value :=
  match v with
  | .vlist l => l
  | .vstr s =>
    if pyStrip s == "" || pyStrip s == "None" || pyStrip s == "null" then []
    else
      match loads s with
      | some (.vlist l) => l
      | some w => [w]
      | none =>
        if s.data.contains ',' then
          ((pySplitComma s).map pyStrip).filterMap
            (fun t => if t == "" then none else some (Value.vstr t))
        else [.vstr s]
  | .vdict kvs => kvs.map (fun kv => Value.vstr kv.1)
  | .vnone => [.vnone]

/-- `list(target.get(key) or [])` for a value known to be present:
falsy values give `[]`, lists pass through, strings iterate their
characters, dicts iterate their keys. -/
def pyListCoerce : Value → List Value
  | .vnone => []
  | .vstr s => if s == "" then [] else s.data.map (fun ch => Value.vstr (String.mk [ch]))
  | .vdict kvs => if kvs.isEmpty then [] else kvs.map (fun kv => Value.vstr kv.1)
  | .vlist l => l

/-- Python hashability of the embedded values: `None` and strings are
hashable, dicts and lists are not (`dict.fromkeys` raises `TypeError` on
them). -/
def Value.pyHashable : Value → Bool
  | .vnone => true
  | .vstr _ => true
  | .vdict _ => false
  | .vlist _ => false

/-- The body of `_update_settings` for one `(key, value)` pair of the
environment properties: skip `None`, insert absent keys directly, merge
list-like keys (parse, then first-occurrence-deduplicated append to the
existing sequence), overwrite the rest.  The dedup step
`list(dict.fromkeys(existing + parsed_value).keys())` is not inside any
`try`: it raises an uncaught `TypeError` as soon as the concatenated list
holds an unhashable element (a dict or a list), modelled here by the
`.error` branch. -/
def processPair (loads : String → Option Value) (target : List (String × Value))
    (k : String) (v : Value) : Except Unit (List (String × Value)) :=
  match v with
  | .vnone => .ok target
  | _ =>
    match alFind target k with
    | none => .ok (alInsert target k v)
    | some existingV =>
      if listLikeKeys.contains k then
        let parsed := parseOverride loads v
        let existing := if existingV.truthy then pyListCoerce existingV else []
        if (existing ++ parsed).all Value.pyHashable then
          .ok (alInsert target k (.vlist (dedupKeepFirst (existing ++ parsed))))
        else .error ()
      else .ok (alInsert target k v)

/-- The loop of `_update_settings` over the environment-properties pairs:
the first pair whose merge raises aborts the whole call (the loop body has
no exception handler). -/
def updateFold (loads : String → Option Value) :
    List (String × Value) → List (String × Value) → Except Unit (List (String × Value))
  | [], t => .ok t
  | kv :: rest, t =>
    match processPair loads t kv.1 kv.2 with
    | .ok t' => updateFold loads rest t'
    | .error e => .error e

/-- `_get_env_properties`: dig
`lean_config["environments"][environment_name]["properties"]` out
defensively, returning `{}` whenever a step is missing, non-dict, or the
environment name is falsy.  The returned value itself may still be
non-dict (the code returns `env_block.get("properties", {})` unchecked);
iterating it then raises in `_update_settings`. -/
def getEnvPropertiesVal (leanConfig : Option (List (String × Value)))
    (environmentName : Option String) : Value :=
  match leanConfig with
  | none => .vdict []
  | some lc =>
    if envTruthy environmentName then
      match (alFind lc "environments").getD (.vdict []) with
      | .vdict envs =>
        match (alFind envs (environmentName.getD "")).getD (.vdict []) with
        | .vdict blk => (alFind blk "properties").getD (.vdict [])
        | _ => .vdict []
      | _ => .vdict []
    else .vdict []

/-- `_update_settings` on a dict target (its annotated type, and the shape
exercised by the repository's tests): fold the environment properties into
the target.  The error cases are `env_props.items()` raising on a non-dict
properties value, and `dict.fromkeys` raising on an unhashable merged
element. -/
def updateSettings (loads : String → Option Value) (environmentName : Option String)
    (target : List (String × Value)) (leanConfig : Option (List (String × Value))) :
    Except Unit (List (String × Value)) :=
  match getEnvPropertiesVal leanConfig environmentName with
  | .vdict props => updateFold loads props target
  | _ => .error ()

/-- Projection used in closed statements about the merger. -/
def updatedValueAt (r : Except Unit (List (String × Value))) (k : String) : Option Value :=
  match r with
  | .ok t => alFind t k
  | .error _ => none

/-! ## Claim-side (specification) definitions

These definitions follow the wording of the claims being checked, for
comparison against the embedded code. -/

/-- Following the claim's wording for C5: a single filter condition
"passes" when its target value is present and truthy and the predicate
holds (for all values of a mapping target).  The claim asserts the entry is
active exactly when every condition passes. -/
def specConditionPassesB (m : JsonModule) (cond : Condition) : Bool :=
  match condTarget m false cond with
  | .ok (some tv) =>
    tv.truthy &&
      (match tv with
       | .vdict kvs => kvs.all fun kv => cond.check kv.2
       | _ => cond.check tv)
  | _ => false

/-- The amended filter gate for C5, written from the amended claim: a
failing or empty-target condition short-circuits to inactive, but a
mapping-valued target decides the whole filter by itself (later conditions
are not consulted). -/
def filterGateAmended (m : JsonModule) : List Condition → Except Unit Bool
  | [] => .ok true
  | cond :: rest =>
    match condTarget m false cond with
    | .error e => .error e
    | .ok none => filterGateAmended m rest
    | .ok (some tv) =>
      if tv.truthy then
        match tv with
        | .vdict kvs => .ok (kvs.all fun kv => cond.check kv.2)
        | _ => if cond.check tv then filterGateAmended m rest else .ok false
      else .ok false

/-- Following the claim's wording for C2: an entry is "required and absent
from every source" when it is non-optional, its key (in both spellings) is
present neither in the CLI channel nor in the properties channel, and the
persisted default is empty. -/
def absentRequiredB (upoN propsN : List (String × Value))
    (leanConfig : Option (List (String × Value))) (environmentName : Option String)
    (c : Configuration) : Bool :=
  !c.optional && !presentEither upoN c.id && !presentEither propsN c.id
    && isEmptyVal (getDefaultCaught leanConfig c.id environmentName)

/-- The set of missing-option flags predicted by claim C2: one flag per
entry that is active at its turn and required-and-absent, collected in
entry order (values are threaded through `resolveEntry` exactly as the loop
does, since later filter checks read earlier resolved values). -/
def missingSpec (promptFn : Configuration → Value) (upoN propsN : List (String × Value))
    (leanConfig : Option (List (String × Value))) (environmentName : Option String) :
    Nat → JsonModule → Nat → List String
  | 0, _, _ => []
  | fuel + 1, st, i =>
    match st.leanConfigs[i]? with
    | none => []
    | some c =>
      match checkIfConfigPassesFilters st c false with
      | .error _ => []
      | .ok false =>
        missingSpec promptFn upoN propsN leanConfig environmentName fuel st (i + 1)
      | .ok true =>
        (if absentRequiredB upoN propsN leanConfig environmentName c
         then ["--" ++ c.id] else [])
          ++ missingSpec promptFn upoN propsN leanConfig environmentName fuel
              (setValueAt st i
                (resolveEntry upoN propsN leanConfig environmentName false promptFn c).1)
              (i + 1)

/-- Whether an entry's class is "conditional `InternalInputUserInput`" (the
entries whose `_value` slot `get_settings` mutates). -/
def isCondKind : ConfigKind → Bool
  | .internalInput true _ => true
  | _ => false

/-- Hypothesis of the amended idempotence claim C8: no conditional entry's
option condition depends on a conditional entry. -/
def noCondDepsB (m : JsonModule) : Bool :=
  m.leanConfigs.all fun c =>
    match c.kind with
    | .internalInput true opts =>
      opts.all fun opt =>
        m.leanConfigs.all fun c' =>
          !(c'.id == opt.condition.dependentConfigId) || !isCondKind c'.kind
    | _ => true

/-- Modules whose filter conditions only name the module-type / platform
sentinels (no dependent-entry lookups): on these, the only failure
`config_build` can raise is the aggregated missing-options error, whatever
the (possibly malformed) persisted configuration contains. -/
def sentinelFiltersOnly (m : JsonModule) : Prop :=
  ∀ c ∈ m.leanConfigs, ∀ cond ∈ c.filterConditions,
    cond.dependentConfigId = MODULE_TYPE ∨ cond.dependentConfigId = MODULE_PLATFORM

/-- Entries related by "same schema, same value unless conditional": the
conditional-evaluation pass of `get_settings` only rewrites the `_value`
slots of conditional entries, so any two states of one module reachable
from each other are related pointwise by this relation. -/
def CfgRel (c c' : Configuration) : Prop :=
  c.id = c'.id ∧ c.kind = c'.kind ∧ c.optional = c'.optional
    ∧ c.inputDefault = c'.inputDefault ∧ c.filterConditions = c'.filterConditions
    ∧ (isCondKind c.kind = false → c.value = c'.value)

/-- `CfgRel` lifted to modules. -/
def ModRel (m m' : JsonModule) : Prop :=
  m.id = m'.id ∧ m.displayName = m'.displayName ∧ m.moduleType = m'.moduleType
    ∧ m.platform = m'.platform ∧ List.Forall₂ CfgRel m.leanConfigs m'.leanConfigs

/-- A module on which every `condStep` is the identity on the state. -/
def StepFix (m : JsonModule) : Prop :=
  ∀ j, (condStep m j).1 = m

/-! ## Concrete modules used in counterexamples and witnesses -/

/-- A prompt function for non-interactive runs (never consulted). -/
def nonePrompt : Configuration → Value := fun _ => .vnone

/-- A module holding a single filter-free entry with unset value, used to
state per-entry properties of `config_build` end to end. -/
def singleEntryModule (k : String) (kind : ConfigKind) (opt : Bool) : JsonModule :=
  { id := "mod", displayName := "Mod", moduleType := "brokerage", platform := "cli",
    leanConfigs := [{ id := k, kind := kind, optional := opt, inputDefault := .vnone,
                      filterConditions := [], value := .vnone }] }

/-- A plain required entry with hyphenated id `api-key` (C1). -/
def c1Entry : Configuration :=
  { id := "api-key", kind := .plain, optional := false, inputDefault := .vnone,
    filterConditions := [], value := .vnone }

/-- Single-entry module for the C1 counterexample. -/
def c1Module : JsonModule :=
  { id := "m1", displayName := "M1", moduleType := "brokerage", platform := "cli",
    leanConfigs := [c1Entry] }

/-- Module with two required, absent entries for the C2 witness. -/
def c2Module : JsonModule :=
  { id := "m2", displayName := "M2", moduleType := "brokerage", platform := "cli",
    leanConfigs :=
      [ { id := "a", kind := .plain, optional := false, inputDefault := .vnone,
          filterConditions := [], value := .vnone },
        { id := "b", kind := .plain, optional := false, inputDefault := .vnone,
          filterConditions := [], value := .vnone } ] }

/-- Module with one required entry for the C3 witness. -/
def c3Module : JsonModule :=
  { id := "m3", displayName := "M3", moduleType := "brokerage", platform := "cli",
    leanConfigs :=
      [ { id := "a-key", kind := .plain, optional := false, inputDefault := .vnone,
          filterConditions := [], value := .vnone } ] }

/-- Conditional entry with a pre-set value and no options (C4
counterexample: no option can match, yet the value survives). -/
def c4Entry : Configuration :=
  { id := "c", kind := .internalInput true [], optional := true, inputDefault := .vnone,
    filterConditions := [], value := .vstr "X" }

/-- Module for the C4 counterexample. -/
def c4Module : JsonModule :=
  { id := "m4", displayName := "M4", moduleType := "brokerage", platform := "cli",
    leanConfigs := [c4Entry] }

/-- Module for the C4 witness: a fresh unmatched conditional entry next to
a plain resolved entry. -/
def c4DemoModule : JsonModule :=
  { id := "m4d", displayName := "M4D", moduleType := "brokerage", platform := "cli",
    leanConfigs :=
      [ { id := "c", kind := .internalInput true [], optional := true,
          inputDefault := .vnone, filterConditions := [], value := .vnone },
        { id := "d", kind := .plain, optional := true, inputDefault := .vnone,
          filterConditions := [], value := .vstr "ok" } ] }

/-- Entry holding a mapping value (C5). -/
def c5EntryD : Configuration :=
  { id := "d", kind := .plain, optional := true, inputDefault := .vnone,
    filterConditions := [], value := .vdict [("k", .vstr "x")] }

/-- Entry whose filter has a mapping-target condition (passing for every
mapping value) followed by an always-failing condition (C5). -/
def c5EntryE : Configuration :=
  { id := "e", kind := .plain, optional := true, inputDefault := .vnone,
    filterConditions :=
      [ { dependentConfigId := "d", check := fun _ => true },
        { dependentConfigId := MODULE_TYPE, check := fun _ => false } ],
    value := .vnone }

/-- Module for the C5 counterexample. -/
def c5Module : JsonModule :=
  { id := "m5", displayName := "M5", moduleType := "brokerage", platform := "cli",
    leanConfigs := [c5EntryD, c5EntryE] }

/-- A condition whose target (the module type) is the empty string (C5
witness, fails-closed case). -/
def c5WitnessCond : Condition :=
  { dependentConfigId := MODULE_TYPE, check := fun _ => true }

/-- Module with empty module type for the C5 witness. -/
def c5WitnessModule : JsonModule :=
  { id := "m5w", displayName := "M5W", moduleType := "", platform := "cli",
    leanConfigs := [] }

/-- The merge target of the C6 statements: the list-like key holding
`["A"]`. -/
def c6Target : List (String × Value) := [("data-queue-handler", .vlist [.vstr "A"])]

/-- A lean config whose environment `env` carries one override for the
list-like key (C6). -/
def c6LeanConfig (v : Value) : Option (List (String × Value)) :=
  some [("environments",
         .vdict [("env", .vdict [("properties", .vdict [("data-queue-handler", v)])])])]

/-- Entry whose filter condition names an id absent from the module (C7). -/
def c7Entry : Configuration :=
  { id := "e7", kind := .plain, optional := true, inputDefault := .vnone,
    filterConditions := [{ dependentConfigId := "nope", check := fun _ => true }],
    value := .vnone }

/-- Module for the C7 counterexample. -/
def c7Module : JsonModule :=
  { id := "m7", displayName := "M7", moduleType := "brokerage", platform := "cli",
    leanConfigs := [c7Entry] }

/-- Module for the C7 witness: a sentinel-only filter together with a
malformed lean config exercises the caught `get_default` failure. -/
def c7WitnessModule : JsonModule :=
  { id := "m7w", displayName := "M7W", moduleType := "brokerage", platform := "cli",
    leanConfigs :=
      [ { id := "w", kind := .plain, optional := true, inputDefault := .vnone,
          filterConditions := [{ dependentConfigId := MODULE_TYPE, check := fun _ => true }],
          value := .vnone } ] }

/-- Conditional entry whose single option fires once its dependency `B`
holds the empty string (C8). -/
def c8EntryA : Configuration :=
  { id := "A",
    kind := .internalInput true
      [ { condition := { dependentConfigId := "B", check := fun v => v == Value.vstr "" },
          value := .vstr "X" } ],
    optional := true, inputDefault := .vnone, filterConditions := [], value := .vnone }

/-- Conditional entry with no options (C8): the first `get_settings` call
rewrites its unset value to `""`. -/
def c8EntryB : Configuration :=
  { id := "B", kind := .internalInput true [], optional := true, inputDefault := .vnone,
    filterConditions := [], value := .vnone }

/-- Module for the C8 counterexample: `A` precedes `B`, so the first call
evaluates `A` against `B = None` and the second against `B = ""`. -/
def c8Module : JsonModule :=
  { id := "m8", displayName := "M8", moduleType := "brokerage", platform := "cli",
    leanConfigs := [c8EntryA, c8EntryB] }

/-- Module for the C8 witness: a conditional entry depending on a plain
entry satisfies the amended hypothesis. -/
def c8WitnessModule : JsonModule :=
  { id := "m8w", displayName := "M8W", moduleType := "brokerage", platform := "cli",
    leanConfigs :=
      [ { id := "base", kind := .plain, optional := true, inputDefault := .vnone,
          filterConditions := [], value := .vstr "live" },
        { id := "cond",
          kind := .internalInput true
            [ { condition := { dependentConfigId := "base",
                               check := fun v => v == Value.vstr "live" },
                value := .vstr "on" } ],
          optional := true, inputDefault := .vnone, filterConditions := [],
          value := .vnone } ] }

/-- Single required entry for the C9 statements. -/
def c9Module : JsonModule :=
  { id := "m9", displayName := "M9", moduleType := "brokerage", platform := "cli",
    leanConfigs :=
      [ { id := "k9", kind := .plain, optional := false, inputDefault := .vnone,
          filterConditions := [], value := .vnone } ] }

/-- The merge target of the C10 counterexample: a pre-existing list with a
duplicated element. -/
def c10Target : List (String × Value) :=
  [("data-queue-handler", .vlist [.vstr "A", .vstr "A"])]

/-! ## Helper lemmas -/

theorem alFind_insert_self {α : Type} (d : List (String × α)) (k : String) (v : α) :
    alFind (alInsert d k v) k = some v := by
  induction d with
  | nil => simp [alInsert, alFind]
  | cons kv rest ih =>
    by_cases h : kv.1 = k
    · simp [alInsert, alFind, h]
    · simp [alInsert, alFind, h, ih]

theorem alFind_insert_ne {α : Type} (d : List (String × α)) (k k' : String) (v : α)
    (h : k' ≠ k) : alFind (alInsert d k v) k' = alFind d k' := by
  have h' : k ≠ k' := fun e => h e.symm
  induction d with
  | nil => simp [alInsert, alFind, h']
  | cons kv rest ih =>
    by_cases hk : kv.1 = k
    · simp [alInsert, alFind, hk, h']
    · simp [alInsert, alFind, hk, ih]

theorem processPair_ok_shape (loads : String → Option Value) (t : List (String × Value))
    (k : String) (v : Value) :
    ∀ t', processPair loads t k v = .ok t' → t' = t ∨ ∃ w, t' = alInsert t k w := by
  intro t' hok
  cases v with
  | vnone =>
    simp only [processPair] at hok
    injection hok with h
    exact Or.inl h.symm
  | vstr s =>
    simp only [processPair] at hok
    rcases hf : alFind t k with _ | w <;> simp only [hf] at hok
    · injection hok with h
      exact Or.inr ⟨_, h.symm⟩
    · split at hok
      · split at hok
        · split at hok
          · injection hok with h
            exact Or.inr ⟨_, h.symm⟩
          · exact Except.noConfusion hok
        · split at hok
          · injection hok with h
            exact Or.inr ⟨_, h.symm⟩
          · exact Except.noConfusion hok
      · injection hok with h
        exact Or.inr ⟨_, h.symm⟩
  | vdict kvs =>
    simp only [processPair] at hok
    rcases hf : alFind t k with _ | w <;> simp only [hf] at hok
    · injection hok with h
      exact Or.inr ⟨_, h.symm⟩
    · split at hok
      · split at hok
        · split at hok
          · injection hok with h
            exact Or.inr ⟨_, h.symm⟩
          · exact Except.noConfusion hok
        · split at hok
          · injection hok with h
            exact Or.inr ⟨_, h.symm⟩
          · exact Except.noConfusion hok
      · injection hok with h
        exact Or.inr ⟨_, h.symm⟩
  | vlist l =>
    simp only [processPair] at hok
    rcases hf : alFind t k with _ | w <;> simp only [hf] at hok
    · injection hok with h
      exact Or.inr ⟨_, h.symm⟩
    · split at hok
      · split at hok
        · split at hok
          · injection hok with h
            exact Or.inr ⟨_, h.symm⟩
          · exact Except.noConfusion hok
        · split at hok
          · injection hok with h
            exact Or.inr ⟨_, h.symm⟩
          · exact Except.noConfusion hok
      · injection hok with h
        exact Or.inr ⟨_, h.symm⟩

theorem processPair_find_ne (loads : String → Option Value) (t : List (String × Value))
    (k : String) (v : Value) (k' : String) (h : k' ≠ k) :
    ∀ t', processPair loads t k v = .ok t' → alFind t' k' = alFind t k' := by
  intro t' hok
  rcases processPair_ok_shape loads t k v t' hok with rfl | ⟨w, rfl⟩
  · rfl
  · exact alFind_insert_ne t k k' w h

theorem fold_process_find_ne (loads : String → Option Value) :
    ∀ (props : List (String × Value)) (t : List (String × Value)) (k : String),
    (∀ kv ∈ props, kv.1 ≠ k) →
    ∀ t', updateFold loads props t = .ok t' → alFind t' k = alFind t k := by
  intro props
  induction props with
  | nil =>
    intro t k _ t' hok
    injection hok with h
    rw [h]
  | cons kv rest ih =>
    intro t k hne t' hok
    have h1 : kv.1 ≠ k := hne kv (by simp)
    have h2 : ∀ kv' ∈ rest, kv'.1 ≠ k := fun kv' hm => hne kv' (by simp [hm])
    simp only [updateFold] at hok
    rcases hp : processPair loads t kv.1 kv.2 with e | t1 <;> simp only [hp] at hok
    · exact Except.noConfusion hok
    · rw [ih t1 k h2 t' hok,
        processPair_find_ne loads t kv.1 kv.2 k (fun e => h1 e.symm) t1 hp]

theorem dedupAux_append_ex :
    ∀ (xs : List Value) (seen ys : List Value),
    ∃ s, dedupAux seen (xs ++ ys) = dedupAux seen xs ++ s := by
  intro xs
  induction xs with
  | nil => exact fun seen ys => ⟨dedupAux seen ys, rfl⟩
  | cons x xs ih =>
    intro seen ys
    simp only [List.cons_append, dedupAux, List.append_eq]
    by_cases h : seen.contains x = true
    · obtain ⟨s, hs⟩ := ih seen ys
      exact ⟨s, by rw [if_pos h, if_pos h, hs]⟩
    · obtain ⟨s, hs⟩ := ih (x :: seen) ys
      exact ⟨s, by rw [if_neg h, if_neg h, hs, List.cons_append]⟩

theorem dedupAux_of_nodup :
    ∀ (xs : List Value) (seen : List Value),
    xs.Nodup → (∀ x ∈ xs, x ∉ seen) → dedupAux seen xs = xs := by
  intro xs
  induction xs with
  | nil => intro seen _ _; rfl
  | cons x xs ih =>
    intro seen hnd hs
    have hx : ¬ seen.contains x = true := by
      simpa using hs x (by simp)
    have hnd' := (List.nodup_cons.mp hnd).2
    have hxx := (List.nodup_cons.mp hnd).1
    simp only [dedupAux]
    rw [if_neg hx, ih (x :: seen) hnd']
    intro y hy
    simp only [List.mem_cons]
    push_neg
    exact ⟨fun e => hxx (e ▸ hy), hs y (by simp [hy])⟩

theorem existing_coerce_eq (ex : List Value) :
    (if (Value.vlist ex).truthy then pyListCoerce (Value.vlist ex) else []) = ex := by
  cases ex <;> simp [Value.truthy, pyListCoerce]

/-! ## Claim C10 -/

theorem listlike_key_eq (k k' : String) (h : listLikeKeys.contains k = true)
    (h' : listLikeKeys.contains k' = true) : k = k' := by
  simp [listLikeKeys] at h h'
  rw [h, h']

theorem processPair_merge_ok (loads : String → Option Value) (t : List (String × Value))
    (k : String) (v : Value) (ex : List Value)
    (hvne : v ≠ .vnone) (hf : alFind t k = some (.vlist ex))
    (hk : listLikeKeys.contains k = true)
    (hhash : (ex ++ parseOverride loads v).all Value.pyHashable = true) :
    processPair loads t k v
      = .ok (alInsert t k (.vlist (dedupKeepFirst (ex ++ parseOverride loads v)))) := by
  cases v with
  | vnone => exact absurd rfl hvne
  | vstr s =>
    simp only [processPair, hf]
    rw [if_pos hk, existing_coerce_eq, if_pos hhash]
  | vdict kvs =>
    simp only [processPair, hf]
    rw [if_pos hk, existing_coerce_eq, if_pos hhash]
  | vlist l =>
    simp only [processPair, hf]
    rw [if_pos hk, existing_coerce_eq, if_pos hhash]

theorem processPair_merge_error (loads : String → Option Value) (t : List (String × Value))
    (k : String) (v : Value) (ex : List Value)
    (hvne : v ≠ .vnone) (hf : alFind t k = some (.vlist ex))
    (hk : listLikeKeys.contains k = true)
    (hhash : (ex ++ parseOverride loads v).all Value.pyHashable = false) :
    processPair loads t k v = .error () := by
  cases v with
  | vnone => exact absurd rfl hvne
  | vstr s =>
    simp only [processPair, hf]
    rw [if_pos hk, existing_coerce_eq, if_neg (by simp [hhash])]
  | vdict kvs =>
    simp only [processPair, hf]
    rw [if_pos hk, existing_coerce_eq, if_neg (by simp [hhash])]
  | vlist l =>
    simp only [processPair, hf]
    rw [if_pos hk, existing_coerce_eq, if_neg (by simp [hhash])]

theorem processPair_ok_of_not_listlike (loads : String → Option Value)
    (t : List (String × Value)) (k : String) (v : Value)
    (hk : listLikeKeys.contains k = false) :
    ∃ t', processPair loads t k v = .ok t' := by
  cases v with
  | vnone => exact ⟨t, rfl⟩
  | vstr s =>
    simp only [processPair]
    rcases hf : alFind t k with _ | w <;> simp only [hf]
    · exact ⟨_, rfl⟩
    · rw [if_neg (by rw [hk]; exact Bool.false_ne_true)]
      exact ⟨_, rfl⟩
  | vdict kvs =>
    simp only [processPair]
    rcases hf : alFind t k with _ | w <;> simp only [hf]
    · exact ⟨_, rfl⟩
    · rw [if_neg (by rw [hk]; exact Bool.false_ne_true)]
      exact ⟨_, rfl⟩
  | vlist l =>
    simp only [processPair]
    rcases hf : alFind t k with _ | w <;> simp only [hf]
    · exact ⟨_, rfl⟩
    · rw [if_neg (by rw [hk]; exact Bool.false_ne_true)]
      exact ⟨_, rfl⟩

theorem updateFold_ok_of_no_listlike (loads : String → Option Value) :
    ∀ (props : List (String × Value)) (t : List (String × Value)),
    (∀ kv ∈ props, listLikeKeys.contains kv.1 = false) →
    ∃ t', updateFold loads props t = .ok t' := by
  intro props
  induction props with
  | nil => exact fun t _ => ⟨t, rfl⟩
  | cons kv rest ih =>
    intro t hnl
    obtain ⟨t1, ht1⟩ := processPair_ok_of_not_listlike loads t kv.1 kv.2 (hnl kv (by simp))
    obtain ⟨t', ht'⟩ := ih t1 (fun kv' hm => hnl kv' (by simp [hm]))
    exact ⟨t', by simp only [updateFold, ht1]; exact ht'⟩

theorem fold_process_merge (loads : String → Option Value) (key : String) (v : Value)
    (ex : List Value) :
    ∀ (props : List (String × Value)) (t : List (String × Value)),
    (props.map Prod.fst).Nodup →
    alFind props key = some v →
    alFind t key = some (.vlist ex) →
    v ≠ .vnone →
    listLikeKeys.contains key = true →
    (ex ++ parseOverride loads v).all Value.pyHashable = true →
    ∃ t', updateFold loads props t = .ok t'
      ∧ alFind t' key = some (.vlist (dedupKeepFirst (ex ++ parseOverride loads v))) := by
  intro props
  induction props with
  | nil => intro t _ hfind; simp [alFind] at hfind
  | cons kv rest ih =>
    intro t hnd hfind htarget hv hl hhash
    have hnd1 : kv.1 ∉ rest.map Prod.fst := (List.nodup_cons.mp (by simpa using hnd)).1
    have hnd2 : (rest.map Prod.fst).Nodup := (List.nodup_cons.mp (by simpa using hnd)).2
    obtain ⟨k0, v0⟩ := kv
    by_cases hk : k0 = key
    · -- this pair is the override of `key`; the remaining pairs have other keys
      subst hk
      have hv0 : v0 = v := by
        simpa [alFind] using hfind
      subst hv0
      have hrest : ∀ kv' ∈ rest, kv'.1 ≠ k0 := by
        intro kv' hm he
        have hmem := List.mem_map_of_mem Prod.fst hm
        rw [he] at hmem
        exact hnd1 hmem
      have hmerge := processPair_merge_ok loads t k0 v0 ex hv htarget hl hhash
      have hnl : ∀ kv' ∈ rest, listLikeKeys.contains kv'.1 = false := by
        intro kv' hm
        cases hx : listLikeKeys.contains kv'.1
        · rfl
        · exact absurd (listlike_key_eq kv'.1 k0 hx hl) (hrest kv' hm)
      obtain ⟨t', ht'⟩ := updateFold_ok_of_no_listlike loads rest
        (alInsert t k0 (.vlist (dedupKeepFirst (ex ++ parseOverride loads v0)))) hnl
      refine ⟨t', ?_, ?_⟩
      · simp only [updateFold, hmerge]
        exact ht'
      · rw [fold_process_find_ne loads rest _ k0 hrest t' ht', alFind_insert_self]
    · have hfind' : alFind rest key = some v := by
        simpa [alFind, hk] using hfind
      have hk0 : listLikeKeys.contains k0 = false := by
        cases hx : listLikeKeys.contains k0
        · rfl
        · exact absurd (listlike_key_eq k0 key hx hl) hk
      obtain ⟨t1, ht1⟩ := processPair_ok_of_not_listlike loads t k0 v0 hk0
      have htarget1 : alFind t1 key = some (.vlist ex) := by
        rw [processPair_find_ne loads t k0 v0 key (fun e => hk e.symm) t1 ht1]
        exact htarget
      obtain ⟨t', ht', hfound⟩ := ih t1 hnd2 hfind' htarget1 hv hl hhash
      exact ⟨t', by simp only [updateFold, ht1]; exact ht', hfound⟩

theorem fold_process_merge_error (loads : String → Option Value) (key : String) (v : Value)
    (ex : List Value) :
    ∀ (props : List (String × Value)) (t : List (String × Value)),
    (props.map Prod.fst).Nodup →
    alFind props key = some v →
    alFind t key = some (.vlist ex) →
    v ≠ .vnone →
    listLikeKeys.contains key = true →
    (ex ++ parseOverride loads v).all Value.pyHashable = false →
    updateFold loads props t = .error () := by
  intro props
  induction props with
  | nil => intro t _ hfind; simp [alFind] at hfind
  | cons kv rest ih =>
    intro t hnd hfind htarget hv hl hhash
    have hnd2 : (rest.map Prod.fst).Nodup := (List.nodup_cons.mp (by simpa using hnd)).2
    obtain ⟨k0, v0⟩ := kv
    by_cases hk : k0 = key
    · subst hk
      have hv0 : v0 = v := by
        simpa [alFind] using hfind
      subst hv0
      have hmerge := processPair_merge_error loads t k0 v0 ex hv htarget hl hhash
      simp only [updateFold, hmerge]
    · have hfind' : alFind rest key = some v := by
        simpa [alFind, hk] using hfind
      have hk0 : listLikeKeys.contains k0 = false := by
        cases hx : listLikeKeys.contains k0
        · rfl
        · exact absurd (listlike_key_eq k0 key hx hl) hk
      obtain ⟨t1, ht1⟩ := processPair_ok_of_not_listlike loads t k0 v0 hk0
      have htarget1 : alFind t1 key = some (.vlist ex) := by
        rw [processPair_find_ne loads t k0 v0 key (fun e => hk e.symm) t1 ht1]
        exact htarget
      simp only [updateFold, ht1]
      exact ih t1 hnd2 hfind' htarget1 hv hl hhash

/-- Claim C10 (corrected): when a list-like key already holds a list and an
override for it is applied, then provided every merged element is hashable
(here: a string or `None`) the merge succeeds and the merged list begins
with the first-occurrence deduplication of the pre-existing list (so no
distinct existing element is removed or reordered, but duplicate
occurrences are collapsed; a duplicate-free pre-existing list is preserved
exactly as a prefix); if instead any element of the existing or parsed
list is a dict or a list, `dict.fromkeys` raises an uncaught `TypeError`
and the whole update aborts instead of merging. -/
theorem c10_merge_preserves_amended (loads : String → Option Value) (env : Option String)
    (lc : Option (List (String × Value))) (target props : List (String × Value))
    (key : String) (ex : List Value) (v : Value)
    (hprops : getEnvPropertiesVal lc env = .vdict props)
    (hnd : (props.map Prod.fst).Nodup)
    (hkey : listLikeKeys.contains key = true)
    (htarget : alFind target key = some (.vlist ex))
    (hfind : alFind props key = some v)
    (hv : v ≠ .vnone) :
    ((ex ++ parseOverride loads v).all Value.pyHashable = true →
      ∃ t', updateSettings loads env target lc = .ok t'
        ∧ (∃ s, alFind t' key = some (.vlist (dedupKeepFirst ex ++ s)))
        ∧ (ex.Nodup → ∃ s, alFind t' key = some (.vlist (ex ++ s))))
    ∧ ((ex ++ parseOverride loads v).all Value.pyHashable = false →
        updateSettings loads env target lc = .error ()) := by
  constructor
  · intro hhash
    obtain ⟨t', ht', hfound⟩ :=
      fold_process_merge loads key v ex props target hnd hfind htarget hv hkey hhash
    refine ⟨t', ?_, ?_, ?_⟩
    · simp only [updateSettings, hprops]
      exact ht'
    · obtain ⟨s, hs⟩ := dedupAux_append_ex ex [] (parseOverride loads v)
      refine ⟨s, ?_⟩
      rw [hfound]
      simp [dedupKeepFirst, hs]
    · intro hnodup
      obtain ⟨s, hs⟩ := dedupAux_append_ex ex [] (parseOverride loads v)
      refine ⟨s, ?_⟩
      rw [hfound]
      have hid : dedupAux [] ex = ex := dedupAux_of_nodup ex [] hnodup (by simp)
      simp [dedupKeepFirst, hs, hid]
  · intro hhash
    simp only [updateSettings, hprops]
    exact fold_process_merge_error loads key v ex props target hnd hfind htarget hv hkey hhash

/-- Claim C10 as stated is false: with pre-existing list `["A","A"]` and
override `""`, the merged list is `["A"]`, which does not begin with the
pre-existing list in its original order (the merge shrank it). -/
theorem c10_counterexample :
    updatedValueAt (updateSettings jsonLoadsModel (some "env") c10Target
        (c6LeanConfig (.vstr ""))) "data-queue-handler"
      = some (.vlist [.vstr "A"])
    ∧ ¬ ∃ s, updatedValueAt (updateSettings jsonLoadsModel (some "env") c10Target
          (c6LeanConfig (.vstr ""))) "data-queue-handler"
        = some (.vlist ([Value.vstr "A", Value.vstr "A"] ++ s)) := by
  have h0 : updatedValueAt (updateSettings jsonLoadsModel (some "env") c10Target
      (c6LeanConfig (.vstr ""))) "data-queue-handler" = some (.vlist [.vstr "A"]) := by
    decide
  refine ⟨h0, ?_⟩
  rintro ⟨s, hs⟩
  rw [h0] at hs
  simp at hs

theorem isEmptyVal_ne_none (v : Value) (h : isEmptyVal v = false) : v ≠ .vnone := by
  intro e
  subst e
  simp [isEmptyVal] at h

theorem lookupNonNone_of_find (d : List (String × Value)) (k : String) (v : Value)
    (hf : alFind d k = some v) (hv : v ≠ Value.vnone) : lookupNonNone d k = some v := by
  unfold lookupNonNone
  rw [hf]
  cases v with
  | vnone => exact absurd rfl hv
  | vstr s => rfl
  | vdict kvs => rfl
  | vlist l => rfl

/-! ## Claim C1 -/

theorem configBuild_single_ok (k : String) (kind : ConfigKind) (opt : Bool)
    (lc : Option (List (String × Value))) (env : Option String)
    (upo props : List (String × Value)) (interactive : Bool)
    (pF : Configuration → Value)
    (hr : (resolveEntry (normalizedOptionsMap upo) (normalizedOptionsMap props) lc env
            interactive pF
            { id := k, kind := kind, optional := opt, inputDefault := .vnone,
              filterConditions := [], value := getDefaultCaught lc k env }).2 = false) :
    configBuild (singleEntryModule k kind opt) lc interactive upo props env pF
      = .ok { singleEntryModule k kind opt with
              leanConfigs :=
                [{ id := k, kind := kind, optional := opt, inputDefault := .vnone,
                   filterConditions := [],
                   value := (resolveEntry (normalizedOptionsMap upo)
                       (normalizedOptionsMap props) lc env interactive pF
                       { id := k, kind := kind, optional := opt, inputDefault := .vnone,
                         filterConditions := [],
                         value := getDefaultCaught lc k env }).1 }] } := by
  have h0 : configBuild (singleEntryModule k kind opt) lc interactive upo props env pF
      = (if (if (resolveEntry (normalizedOptionsMap upo) (normalizedOptionsMap props) lc env
              interactive pF
              { id := k, kind := kind, optional := opt, inputDefault := .vnone,
                filterConditions := [], value := getDefaultCaught lc k env }).2
            then ["--" ++ k] else ([] : List String)).isEmpty
         then .ok { singleEntryModule k kind opt with
                    leanConfigs :=
                      [{ id := k, kind := kind, optional := opt, inputDefault := .vnone,
                         filterConditions := [],
                         value := (resolveEntry (normalizedOptionsMap upo)
                             (normalizedOptionsMap props) lc env interactive pF
                             { id := k, kind := kind, optional := opt,
                               inputDefault := .vnone, filterConditions := [],
                               value := getDefaultCaught lc k env }).1 }] }
         else .error (.missingOptions
            (if (resolveEntry (normalizedOptionsMap upo) (normalizedOptionsMap props) lc env
                interactive pF
                { id := k, kind := kind, optional := opt, inputDefault := .vnone,
                  filterConditions := [], value := getDefaultCaught lc k env }).2
              then ["--" ++ k] else []))) := rfl
  rw [h0, hr]
  rfl

/-- Claim C1 as stated is false for the persisted-default channel: with the
lean config storing the default under the underscored spelling `api_key`
while the entry id is `api-key`, non-interactive `config_build` does not
resolve the persisted default (it reports the entry missing), whereas
storing it under the exact id resolves it.  `get_default` looks keys up
under the entry's exact id only — there is no spelling normalization in
that channel. -/
theorem c1_counterexample :
    buildMissing (configBuild c1Module (some [("api_key", Value.vstr "persisted")])
        false [] [] none nonePrompt) = some ["--api-key"]
    ∧ buildOkValues (configBuild c1Module (some [("api-key", Value.vstr "persisted")])
        false [] [] none nonePrompt) = some [.vstr "persisted"] := by
  exact ⟨rfl, rfl⟩

/-- Claim C1 (corrected): for an entry whose key is supplied in all three
channels (with hyphen/underscore spelling matched via the normalized maps
in the CLI and properties channels, and under the exact entry id in the
persisted lean config), the resolved value is the CLI value; with the CLI
channel emptied it is the properties value; with both emptied it is the
persisted default. -/
theorem c1_precedence_amended (k : String) (kind : ConfigKind) (opt : Bool)
    (a b d : Value) (upo props lcd : List (String × Value)) (interactive : Bool)
    (pF : Configuration → Value)
    (hA : alFind (normalizedOptionsMap upo) (varKey k) = some a)
    (hB : alFind (normalizedOptionsMap props) (varKey k) = some b)
    (hD : alFind lcd k = some d)
    (ha : isEmptyVal a = false) (hb : isEmptyVal b = false) (hd : isEmptyVal d = false) :
    buildOkValues (configBuild (singleEntryModule k kind opt) (some lcd) interactive
        upo props none pF) = some [a]
    ∧ buildOkValues (configBuild (singleEntryModule k kind opt) (some lcd) interactive
        [] props none pF) = some [b]
    ∧ buildOkValues (configBuild (singleEntryModule k kind opt) (some lcd) interactive
        [] [] none pF) = some [d] := by
  have hdc : getDefaultCaught (some lcd) k none = d := by
    simp only [getDefaultCaught, getDefault, envTruthy]
    rw [if_neg (by simp)]
    rw [hD]
    rfl
  refine ⟨?_, ?_, ?_⟩
  · have hrs : resolveSources (normalizedOptionsMap upo) (normalizedOptionsMap props)
        (some lcd) none
        { id := k, kind := kind, optional := opt, inputDefault := .vnone,
          filterConditions := [], value := getDefaultCaught (some lcd) k none } = a := by
      simp only [resolveSources]
      rw [lookupNonNone_of_find _ _ _ hA (isEmptyVal_ne_none a ha)]
    have hre : resolveEntry (normalizedOptionsMap upo) (normalizedOptionsMap props)
        (some lcd) none interactive pF
        { id := k, kind := kind, optional := opt, inputDefault := .vnone,
          filterConditions := [], value := getDefaultCaught (some lcd) k none }
        = (a, false) := by
      simp only [resolveEntry, hrs, ha]
      rfl
    rw [configBuild_single_ok k kind opt (some lcd) none upo props interactive pF
      (by rw [hre])]
    rw [buildOkValues]
    simp [singleEntryModule, hre]
  · have hrs : resolveSources (normalizedOptionsMap ([] : List (String × Value)))
        (normalizedOptionsMap props) (some lcd) none
        { id := k, kind := kind, optional := opt, inputDefault := .vnone,
          filterConditions := [], value := getDefaultCaught (some lcd) k none } = b := by
      simp only [resolveSources]
      rw [show normalizedOptionsMap ([] : List (String × Value)) = [] from rfl]
      simp only [lookupNonNone, alFind]
      rw [hB]
    have hre : resolveEntry (normalizedOptionsMap ([] : List (String × Value)))
        (normalizedOptionsMap props) (some lcd) none interactive pF
        { id := k, kind := kind, optional := opt, inputDefault := .vnone,
          filterConditions := [], value := getDefaultCaught (some lcd) k none }
        = (b, false) := by
      simp only [resolveEntry, hrs, hb]
      rfl
    rw [configBuild_single_ok k kind opt (some lcd) none [] props interactive pF
      (by rw [hre])]
    rw [buildOkValues]
    simp [singleEntryModule, hre]
  · have hrs : resolveSources (normalizedOptionsMap ([] : List (String × Value)))
        (normalizedOptionsMap ([] : List (String × Value))) (some lcd) none
        { id := k, kind := kind, optional := opt, inputDefault := .vnone,
          filterConditions := [], value := getDefaultCaught (some lcd) k none } = d := by
      simp only [resolveSources]
      rw [show normalizedOptionsMap ([] : List (String × Value)) = [] from rfl]
      simp only [lookupNonNone, alFind]
      exact hdc
    have hre : resolveEntry (normalizedOptionsMap ([] : List (String × Value)))
        (normalizedOptionsMap ([] : List (String × Value))) (some lcd) none interactive pF
        { id := k, kind := kind, optional := opt, inputDefault := .vnone,
          filterConditions := [], value := getDefaultCaught (some lcd) k none }
        = (d, false) := by
      simp only [resolveEntry, hrs, hd]
      rfl
    rw [configBuild_single_ok k kind opt (some lcd) none [] [] interactive pF
      (by rw [hre])]
    rw [buildOkValues]
    simp [singleEntryModule, hre]

/-- Witness for the amended C1 theorem: mixed concrete spellings in the CLI
and properties channels, the exact id in the lean config. -/
theorem c1_precedence_amended_witness :
    buildOkValues (configBuild (singleEntryModule "api-key" .plain false)
        (some [("api-key", Value.vstr "lc")]) false
        [("api_key", Value.vstr "cli")] [("api-key", Value.vstr "props")] none nonePrompt)
      = some [Value.vstr "cli"]
    ∧ buildOkValues (configBuild (singleEntryModule "api-key" .plain false)
        (some [("api-key", Value.vstr "lc")]) false
        [] [("api-key", Value.vstr "props")] none nonePrompt)
      = some [Value.vstr "props"]
    ∧ buildOkValues (configBuild (singleEntryModule "api-key" .plain false)
        (some [("api-key", Value.vstr "lc")]) false [] [] none nonePrompt)
      = some [Value.vstr "lc"] :=
  c1_precedence_amended "api-key" .plain false (Value.vstr "cli") (Value.vstr "props")
    (Value.vstr "lc") [("api_key", Value.vstr "cli")] [("api-key", Value.vstr "props")]
    [("api-key", Value.vstr "lc")] false nonePrompt (by decide) (by decide) (by decide)
    (by decide) (by decide) (by decide)

/-! ## Claims C2, C3, C9: the missing-options machinery -/

theorem string_dashdash_cancel (a b : String) (h : "--" ++ a = "--" ++ b) : a = b := by
  have hd : ("--" ++ a).data = ("--" ++ b).data := congrArg String.data h
  rw [String.data_append, String.data_append] at hd
  exact String.ext (List.append_cancel_left hd)

theorem presentEither_false (d : List (String × Value)) (lk : String)
    (h : presentEither d lk = false) :
    alFind d lk = none ∧ alFind d (varKey lk) = none := by
  unfold presentEither at h
  constructor
  · rcases hf : alFind d lk with _ | v
    · rfl
    · rw [hf] at h; simp at h
  · rcases hf : alFind d (varKey lk) with _ | v
    · rfl
    · rw [hf] at h; simp at h

theorem lookupNonNone_none (d : List (String × Value)) (k : String)
    (h : alFind d k = none) : lookupNonNone d k = none := by
  unfold lookupNonNone
  rw [h]

/-- When the entry's key (in both spellings) is present in neither channel,
per-entry resolution falls through to the caught persisted default. -/
theorem resolveSources_absent (upoN propsN : List (String × Value))
    (lc : Option (List (String × Value))) (env : Option String) (c : Configuration)
    (hU : presentEither upoN c.id = false) (hP : presentEither propsN c.id = false) :
    resolveSources upoN propsN lc env c = getDefaultCaught lc c.id env := by
  obtain ⟨hu1, hu2⟩ := presentEither_false _ _ hU
  obtain ⟨hp1, hp2⟩ := presentEither_false _ _ hP
  simp only [resolveSources]
  rw [lookupNonNone_none _ _ hu2, lookupNonNone_none _ _ hu1, hp2, hp1]

/-- The per-entry missing flag computed by the `config_build` loop body in
non-interactive mode coincides with the claim-worded
required-and-absent-from-every-source predicate. -/
theorem resolveEntry_missing_flag (upoN propsN : List (String × Value))
    (lc : Option (List (String × Value))) (env : Option String)
    (pF : Configuration → Value) (c : Configuration) :
    (resolveEntry upoN propsN lc env false pF c).2
      = absentRequiredB upoN propsN lc env c := by
  by_cases hU : presentEither upoN c.id = true
  · simp only [resolveEntry, absentRequiredB, hU]
    cases he : isEmptyVal (resolveSources upoN propsN lc env c) <;>
      cases ho : c.optional <;> simp [he, ho, hU]
  · have hU' : presentEither upoN c.id = false := by simpa using hU
    by_cases hP : presentEither propsN c.id = true
    · simp only [resolveEntry, absentRequiredB, hP]
      cases he : isEmptyVal (resolveSources upoN propsN lc env c) <;>
        cases ho : c.optional <;> simp [he, ho, hP]
    · have hP' : presentEither propsN c.id = false := by simpa using hP
      have hsrc := resolveSources_absent upoN propsN lc env c hU' hP'
      simp only [resolveEntry, absentRequiredB, hsrc]
      cases he : isEmptyVal (getDefaultCaught lc c.id env) <;>
        cases ho : c.optional <;> simp [he, ho, hU', hP']

theorem missingSpec_mem (pF : Configuration → Value) (upoN propsN : List (String × Value))
    (lc : Option (List (String × Value))) (env : Option String) :
    ∀ (fuel : Nat) (st : JsonModule) (i : Nat) (f : String),
    f ∈ missingSpec pF upoN propsN lc env fuel st i →
    ∃ c : Configuration, f = "--" ++ c.id ∧ absentRequiredB upoN propsN lc env c = true := by
  intro fuel
  induction fuel with
  | zero => intro st i f h; simp [missingSpec] at h
  | succ n ih =>
    intro st i f h
    simp only [missingSpec] at h
    rcases hg : st.leanConfigs[i]? with _ | c
    · simp [hg] at h
    · simp only [hg] at h
      rcases hf : checkIfConfigPassesFilters st c false with e | b
      · simp [hf] at h
      · simp only [hf] at h
        cases b
        · exact ih st (i + 1) f h
        · have h' : f ∈ (if absentRequiredB upoN propsN lc env c then ["--" ++ c.id] else [])
              ++ missingSpec pF upoN propsN lc env n
                  (setValueAt st i (resolveEntry upoN propsN lc env false pF c).1)
                  (i + 1) := h
          rcases List.mem_append.mp h' with h1 | h2
          · by_cases har : absentRequiredB upoN propsN lc env c = true
            · rw [if_pos har] at h1
              simp only [List.mem_singleton] at h1
              exact ⟨c, h1, har⟩
            · rw [if_neg har] at h1
              simp at h1
          · exact ih _ (i + 1) f h2

theorem configBuildLoop_missing (pF : Configuration → Value)
    (upoN propsN : List (String × Value)) (lc : Option (List (String × Value)))
    (env : Option String) :
    ∀ (fuel : Nat) (st : JsonModule) (i : Nat) (acc : List String)
      (st' : JsonModule) (missing : List String),
    configBuildLoop pF upoN propsN lc env false fuel st i acc = .ok (st', missing) →
    missing = acc ++ missingSpec pF upoN propsN lc env fuel st i := by
  intro fuel
  induction fuel with
  | zero =>
    intro st i acc st' missing h
    simp only [configBuildLoop] at h
    cases h
    simp [missingSpec]
  | succ n ih =>
    intro st i acc st' missing h
    simp only [configBuildLoop] at h
    rcases hg : st.leanConfigs[i]? with _ | c
    · simp only [hg] at h
      cases h
      simp [missingSpec, hg]
    · simp only [hg] at h
      rcases hf : checkIfConfigPassesFilters st c false with e | b
      · simp [hf] at h
      · simp only [hf] at h
        cases b
        · have hspec : missingSpec pF upoN propsN lc env (n + 1) st i
              = missingSpec pF upoN propsN lc env n st (i + 1) := by
            simp only [missingSpec, hg, hf]
          rw [hspec]
          exact ih st (i + 1) acc st' missing h
        · have h' : configBuildLoop pF upoN propsN lc env false n
              (setValueAt st i (resolveEntry upoN propsN lc env false pF c).1) (i + 1)
              (acc ++ if (resolveEntry upoN propsN lc env false pF c).2
                then ["--" ++ c.id] else [])
            = .ok (st', missing) := h
          have hspec : missingSpec pF upoN propsN lc env (n + 1) st i
              = (if absentRequiredB upoN propsN lc env c then ["--" ++ c.id] else [])
                ++ missingSpec pF upoN propsN lc env n
                    (setValueAt st i (resolveEntry upoN propsN lc env false pF c).1)
                    (i + 1) := by
            simp only [missingSpec, hg, hf]
          rw [hspec, ih _ (i + 1) _ st' missing h', resolveEntry_missing_flag,
            List.append_assoc]

/-- Claim C2 (confirmed): when the non-interactive entry loop completes
without a filter-lookup failure, the collected missing-option flags are
exactly the claim's set — one flag per entry that is active at its turn,
non-optional, and whose value is absent from the CLI channel, the
properties channel and the persisted default — and `config_build` raises
the single aggregated failure carrying exactly that set iff the set is
non-empty, returning normally otherwise. -/
theorem c2_missing_aggregation (m : JsonModule)
    (lc : Option (List (String × Value))) (upo props : List (String × Value))
    (env : Option String) (pF : Configuration → Value) (st' : JsonModule)
    (missing : List String)
    (h : configBuildLoop pF (normalizedOptionsMap upo) (normalizedOptionsMap props) lc env
        false (prefillConfigs m lc env).leanConfigs.length (prefillConfigs m lc env) 0 []
      = .ok (st', missing)) :
    missing = missingSpec pF (normalizedOptionsMap upo) (normalizedOptionsMap props) lc env
        (prefillConfigs m lc env).leanConfigs.length (prefillConfigs m lc env) 0
    ∧ (missing = [] → configBuild m lc false upo props env pF = .ok st')
    ∧ (missing ≠ [] →
        configBuild m lc false upo props env pF
          = .error (.missingOptions
              (missingSpec pF (normalizedOptionsMap upo) (normalizedOptionsMap props) lc env
                (prefillConfigs m lc env).leanConfigs.length (prefillConfigs m lc env) 0))) := by
  have hm := configBuildLoop_missing pF (normalizedOptionsMap upo)
    (normalizedOptionsMap props) lc env _ _ 0 [] st' missing h
  rw [List.nil_append] at hm
  refine ⟨hm, ?_, ?_⟩
  · intro hnil
    simp only [configBuild]
    rw [h]
    simp [hnil]
  · intro hne
    simp only [configBuild]
    rw [h]
    have : missing.isEmpty = false := by
      cases missing
      · exact absurd rfl hne
      · rfl
    simp only [this, Bool.false_eq_true, if_false]
    rw [hm]

/-- Witness for the C2 theorem: a module with two required entries absent
from every source yields the aggregated failure listing both flags. -/
theorem c2_missing_aggregation_witness :
    configBuild c2Module none false [] [] none nonePrompt
      = .error (.missingOptions
          (missingSpec nonePrompt (normalizedOptionsMap []) (normalizedOptionsMap []) none none
            (prefillConfigs c2Module none none).leanConfigs.length
            (prefillConfigs c2Module none none) 0))
    ∧ missingSpec nonePrompt (normalizedOptionsMap []) (normalizedOptionsMap []) none none
        (prefillConfigs c2Module none none).leanConfigs.length
        (prefillConfigs c2Module none none) 0 = ["--a", "--b"] :=
  ⟨(c2_missing_aggregation c2Module none [] [] none nonePrompt c2Module ["--a", "--b"]
      rfl).2.2 (by decide), rfl⟩

/-- Claim C3 (confirmed): an entry whose key is present (in either
spelling) in the normalized properties channel is never reported missing
by a completed non-interactive `config_build` loop; and for a required
entry whose properties value is the explicit empty string (with the CLI
channel not supplying it), per-entry resolution accepts the empty string
as the resolved value without marking the entry missing. -/
theorem c3_explicit_empty_not_missing (m : JsonModule)
    (lc : Option (List (String × Value))) (upo props : List (String × Value))
    (env : Option String) (pF : Configuration → Value) (st' : JsonModule)
    (missing : List String) (cid : String)
    (h : configBuildLoop pF (normalizedOptionsMap upo) (normalizedOptionsMap props) lc env
        false (prefillConfigs m lc env).leanConfigs.length (prefillConfigs m lc env) 0 []
      = .ok (st', missing))
    (hpres : presentEither (normalizedOptionsMap props) cid = true) :
    ("--" ++ cid) ∉ missing
    ∧ (∀ c : Configuration, c.id = cid → c.optional = false →
        lookupNonNone (normalizedOptionsMap upo) (varKey cid) = none →
        lookupNonNone (normalizedOptionsMap upo) cid = none →
        alFind (normalizedOptionsMap props) (varKey cid) = some (.vstr "") →
        resolveEntry (normalizedOptionsMap upo) (normalizedOptionsMap props) lc env false pF c
          = (.vstr "", false)) := by
  constructor
  · intro hmem
    have hm := configBuildLoop_missing pF (normalizedOptionsMap upo)
      (normalizedOptionsMap props) lc env _ _ 0 [] st' missing h
    rw [List.nil_append] at hm
    rw [hm] at hmem
    obtain ⟨c, hcf, har⟩ := missingSpec_mem _ _ _ _ _ _ _ _ _ hmem
    have hcid : cid = c.id := string_dashdash_cancel _ _ hcf
    have : presentEither (normalizedOptionsMap props) c.id = true := hcid ▸ hpres
    simp [absentRequiredB, this] at har
  · intro c hcid hopt hu1 hu2 hfp
    have hrs : resolveSources (normalizedOptionsMap upo) (normalizedOptionsMap props)
        lc env c = .vstr "" := by
      simp only [resolveSources, hcid]
      rw [hu1, hu2, hfp]
    have hps : presentEither (normalizedOptionsMap props) c.id = true := hcid ▸ hpres
    simp only [resolveEntry, hrs, hopt, hps]
    rfl

/-- Witness for the C3 theorem: a required entry supplied as an explicit
empty string in the properties channel (underscored spelling). -/
theorem c3_explicit_empty_not_missing_witness :
    ("--" ++ "a-key") ∉ (["--zzz"] : List String)
    ∧ (∀ c : Configuration, c.id = "a-key" → c.optional = false →
        lookupNonNone (normalizedOptionsMap []) (varKey "a-key") = none →
        lookupNonNone (normalizedOptionsMap []) "a-key" = none →
        alFind (normalizedOptionsMap [("a_key", Value.vstr "")]) (varKey "a-key")
          = some (.vstr "") →
        resolveEntry (normalizedOptionsMap []) (normalizedOptionsMap [("a_key", Value.vstr "")])
          none none false nonePrompt c = (.vstr "", false)) := by
  have := c3_explicit_empty_not_missing c3Module none []
    [("a_key", Value.vstr "")] none nonePrompt
    { c3Module with
      leanConfigs := [{ id := "a-key", kind := .plain, optional := false,
                        inputDefault := .vnone, filterConditions := [],
                        value := .vstr "" }] }
    [] "a-key" rfl (by decide)
  exact ⟨by decide, this.2⟩

/-- Claim C9 (confirmed): a key mapping to Python `None` in the properties
channel counts as explicitly provided — a required entry with no other
source resolves to the empty string and is not marked missing — whereas a
`None` value in the CLI channel is skipped and resolution falls through to
the lower-precedence sources, as the concrete full runs also show. -/
theorem c9_none_handling :
    (∀ (upoN propsN : List (String × Value)) (lc : Option (List (String × Value)))
       (env : Option String) (pF : Configuration → Value) (c : Configuration),
      c.optional = false →
      lookupNonNone upoN (varKey c.id) = none →
      lookupNonNone upoN c.id = none →
      alFind propsN (varKey c.id) = some .vnone →
      resolveEntry upoN propsN lc env false pF c = (.vstr "", false))
    ∧ (∀ (upoN propsN : List (String × Value)) (lc : Option (List (String × Value)))
         (env : Option String) (c : Configuration),
        (alFind upoN (varKey c.id) = some .vnone ∨ alFind upoN (varKey c.id) = none) →
        (alFind upoN c.id = some .vnone ∨ alFind upoN c.id = none) →
        resolveSources upoN propsN lc env c = resolveSources [] propsN lc env c)
    ∧ buildOkValues (configBuild c9Module none false [] [("k9", .vnone)] none nonePrompt)
        = some [.vstr ""]
    ∧ buildOkValues (configBuild c9Module none false [("k9", .vnone)]
        [("k9", .vstr "fromprops")] none nonePrompt) = some [.vstr "fromprops"]
    ∧ buildOkValues (configBuild c9Module (some [("k9", .vstr "fromlc")]) false
        [("k9", .vnone)] [] none nonePrompt) = some [.vstr "fromlc"] := by
  refine ⟨?_, ?_, rfl, rfl, rfl⟩
  · intro upoN propsN lc env pF c hopt hu1 hu2 hfp
    have hprops : presentEither propsN c.id = true := by
      unfold presentEither
      rw [hfp]
      simp
    have hrs : resolveSources upoN propsN lc env c = .vnone := by
      simp only [resolveSources]
      rw [hu1, hu2, hfp]
    simp only [resolveEntry, hrs, hopt, hprops]
    rfl
  · intro upoN propsN lc env c hu1 hu2
    have hl1 : lookupNonNone upoN (varKey c.id) = none := by
      rcases hu1 with h1 | h1 <;> unfold lookupNonNone <;> rw [h1]
    have hl2 : lookupNonNone upoN c.id = none := by
      rcases hu2 with h1 | h1 <;> unfold lookupNonNone <;> rw [h1]
    simp only [resolveSources]
    rw [hl1, hl2]
    rfl

/-- Witness for the C9 theorem at a concrete required entry. -/
theorem c9_none_handling_witness :
    resolveEntry [] [("k9", Value.vnone)] none none false nonePrompt
        { id := "k9", kind := .plain, optional := false, inputDefault := .vnone,
          filterConditions := [], value := .vnone }
      = (.vstr "", false) :=
  c9_none_handling.1 [] [("k9", Value.vnone)] none none nonePrompt
    { id := "k9", kind := .plain, optional := false, inputDefault := .vnone,
      filterConditions := [], value := .vnone }
    rfl rfl rfl rfl

/-! ## `condPass` structure lemmas (used by C4, C7 and C8) -/

theorem setValueList_length (l : List Configuration) (i : Nat) (v : Value) :
    (setValueList l i v).length = l.length := by
  induction l generalizing i with
  | nil => rfl
  | cons c rest ih =>
    cases i with
    | zero => rfl
    | succ n => simp [setValueList, ih]

theorem setValueList_get_self (l : List Configuration) (i : Nat) (v : Value) :
    (setValueList l i v)[i]? = (l[i]?).map (fun c => { c with value := v }) := by
  induction l generalizing i with
  | nil => simp [setValueList]
  | cons c rest ih =>
    cases i with
    | zero => simp [setValueList]
    | succ n => simpa [setValueList] using ih n

theorem setValueList_get_ne (l : List Configuration) (i : Nat) (v : Value)
    (j : Nat) (h : j ≠ i) : (setValueList l i v)[j]? = l[j]? := by
  induction l generalizing i j with
  | nil => simp [setValueList]
  | cons c rest ih =>
    cases i with
    | zero =>
      cases j with
      | zero => exact absurd rfl h
      | succ jn => simp [setValueList]
    | succ n =>
      cases j with
      | zero => simp [setValueList]
      | succ jn => simpa [setValueList] using ih n jn (fun e => h (by omega))

theorem condStepEntry_length (m : JsonModule) (i : Nat) (c : Configuration) :
    (condStepEntry m i c).1.leanConfigs.length = m.leanConfigs.length := by
  rcases hk : c.kind with ⟨b, opts⟩ | _ | _ | _ | _ <;> simp only [condStepEntry, hk]
  · cases b
    · rfl
    · rcases hm : findMatchedOption m opts with _ | v <;>
        simp [hm, setValueAt, setValueList_length]

theorem condStep_length (m : JsonModule) (i : Nat) :
    (condStep m i).1.leanConfigs.length = m.leanConfigs.length := by
  rcases hg : m.leanConfigs[i]? with _ | c
  · simp [condStep, hg]
  · simp only [condStep, hg]
    exact condStepEntry_length m i c

theorem condStepEntry_get_ne (m : JsonModule) (i : Nat) (c : Configuration)
    (j : Nat) (h : j ≠ i) :
    (condStepEntry m i c).1.leanConfigs[j]? = m.leanConfigs[j]? := by
  rcases hk : c.kind with ⟨b, opts⟩ | _ | _ | _ | _ <;> simp only [condStepEntry, hk]
  · cases b
    · rfl
    · rcases hm : findMatchedOption m opts with _ | v <;>
        simp [hm, setValueAt, setValueList_get_ne _ _ _ _ h]

theorem condStep_get_ne (m : JsonModule) (i j : Nat) (h : j ≠ i) :
    (condStep m i).1.leanConfigs[j]? = m.leanConfigs[j]? := by
  rcases hg : m.leanConfigs[i]? with _ | c
  · simp [condStep, hg]
  · simp only [condStep, hg]
    exact condStepEntry_get_ne m i c j h

theorem condPass_length (fuel : Nat) :
    ∀ (m : JsonModule) (i : Nat),
    (condPass fuel m i).1.leanConfigs.length = m.leanConfigs.length := by
  induction fuel with
  | zero => intro m i; rfl
  | succ n ih =>
    intro m i
    simp only [condPass]
    rw [ih, condStep_length]

theorem condPass_get_lt (fuel : Nat) :
    ∀ (m : JsonModule) (i j : Nat), j < i →
    (condPass fuel m i).1.leanConfigs[j]? = m.leanConfigs[j]? := by
  induction fuel with
  | zero => intro m i j _; rfl
  | succ n ih =>
    intro m i j hj
    simp only [condPass]
    rw [ih _ (i + 1) j (by omega), condStep_get_ne _ _ _ (by omega)]

theorem condPass_split (a : Nat) :
    ∀ (b : Nat) (m : JsonModule) (i : Nat),
    condPass (a + b) m i
      = ((condPass b (condPass a m i).1 (i + a)).1,
         (condPass a m i).2 ++ (condPass b (condPass a m i).1 (i + a)).2) := by
  induction a with
  | zero =>
    intro b m i
    simp [condPass]
  | succ n ih =>
    intro b m i
    have harith : n + 1 + b = (n + b) + 1 := by omega
    rw [harith]
    simp only [condPass]
    rw [ih b (condStep m i).1 (i + 1)]
    have harith2 : i + 1 + n = i + (n + 1) := by omega
    rw [harith2, List.append_assoc]

/-! ## Claim C4 -/

/-- Claim C4 as stated is false: `c4Entry` is conditional with no options,
so no option's condition can match, yet `get_settings` reports its
pre-existing value `"X"` — the no-match branch only replaces the value
slot with `""` when it is unset (`None`). -/
theorem c4_counterexample :
    c4Entry.kind = .internalInput true []
    ∧ alFind (getSettings c4Module).settings "c" = some "X"
    ∧ alFind (getSettings c4Module).settings "c" ≠ some "" := by
  refine ⟨rfl, rfl, ?_⟩
  decide

/-- Claim C4 (corrected): for a conditional entry none of whose options
matches at its turn of the conditional pass, `get_settings` warns (and does
not raise — the embedding is total); the entry's value slot becomes `""`
when it was unset, while an already-set value is kept; execution continues
for the remaining entries, as the concrete run on `c4DemoModule` (an
unset unmatched conditional next to a plain resolved entry) shows: the
conditional entry surfaces as `""` in the settings map alongside the other
entry. -/
theorem c4_unmatched_conditional_amended :
    (∀ (m : JsonModule) (i : Nat) (c : Configuration) (opts : List ValueOption),
      (condPass i m 0).1.leanConfigs[i]? = some c →
      c.kind = .internalInput true opts →
      findMatchedOption (condPass i m 0).1 opts = none →
      noMatchWarning c.id ∈ (getSettings m).warnings
      ∧ (getSettings m).module.leanConfigs[i]?
          = some { c with value := match c.value with | .vnone => .vstr "" | v => v })
    ∧ (getSettings c4DemoModule).settings = [("id", "m4d"), ("c", ""), ("d", "ok")]
    ∧ (getSettings c4DemoModule).warnings = [noMatchWarning "c"] := by
  refine ⟨?_, rfl, rfl⟩
  intro m i c opts hc hkind hnm
  have hi : i < m.leanConfigs.length := by
    have h1 := (List.getElem?_eq_some.mp hc).1
    rwa [condPass_length] at h1
  have hstep : condStep (condPass i m 0).1 i
      = (setValueAt (condPass i m 0).1 i
          (match c.value with | .vnone => .vstr "" | v => v), [noMatchWarning c.id]) := by
    simp only [condStep, hc, condStepEntry, hkind, hnm]
  have hfuel : m.leanConfigs.length = i + ((m.leanConfigs.length - i - 1) + 1) := by
    omega
  have hsplit := condPass_split i ((m.leanConfigs.length - i - 1) + 1) m 0
  have hpass : condPass m.leanConfigs.length m 0
      = ((condPass ((m.leanConfigs.length - i - 1) + 1) (condPass i m 0).1 i).1,
         (condPass i m 0).2
           ++ (condPass ((m.leanConfigs.length - i - 1) + 1) (condPass i m 0).1 i).2) := by
    rw [hfuel]
    simpa using hsplit
  have hone : condPass ((m.leanConfigs.length - i - 1) + 1) (condPass i m 0).1 i
      = ((condPass (m.leanConfigs.length - i - 1)
            (setValueAt (condPass i m 0).1 i
              (match c.value with | .vnone => .vstr "" | v => v)) (i + 1)).1,
         [noMatchWarning c.id]
           ++ (condPass (m.leanConfigs.length - i - 1)
              (setValueAt (condPass i m 0).1 i
                (match c.value with | .vnone => .vstr "" | v => v)) (i + 1)).2) := by
    simp only [condPass, hstep]
  constructor
  · simp only [getSettings, hpass, hone]
    simp [List.mem_append]
  · simp only [getSettings, hpass, hone]
    rw [condPass_get_lt _ _ _ _ (by omega)]
    simp only [setValueAt, setValueList_get_self, hc]
    rfl

/-- Witness for the amended C4 theorem: the unset unmatched conditional of
`c4DemoModule` gets value `""` and a surfaced warning. -/
theorem c4_unmatched_conditional_amended_witness :
    noMatchWarning "c" ∈ (getSettings c4DemoModule).warnings
    ∧ (getSettings c4DemoModule).module.leanConfigs[0]?
        = some { id := "c", kind := .internalInput true [], optional := true,
                 inputDefault := .vnone, filterConditions := [],
                 value := .vstr "" } :=
  c4_unmatched_conditional_amended.1 c4DemoModule 0
    { id := "c", kind := .internalInput true [], optional := true,
      inputDefault := .vnone, filterConditions := [], value := .vnone }
    [] rfl rfl rfl

/-! ## Claim C7 -/

theorem checkFiltersAux_sentinel (m : JsonModule) :
    ∀ conds : List Condition,
    (∀ cond ∈ conds, cond.dependentConfigId = MODULE_TYPE
      ∨ cond.dependentConfigId = MODULE_PLATFORM) →
    ∃ b, checkFiltersAux m false conds = .ok b := by
  intro conds
  induction conds with
  | nil => exact fun _ => ⟨true, rfl⟩
  | cons cond rest ih =>
    intro h
    have htv : ∃ tv, condTarget m false cond = .ok (some tv) := by
      rcases h cond (by simp) with hd | hd
      · exact ⟨.vstr m.moduleType, by simp [condTarget, hd]⟩
      · refine ⟨.vstr m.platform, ?_⟩
        have hne : (MODULE_PLATFORM == MODULE_TYPE) = false := by decide
        simp [condTarget, hd, hne]
    obtain ⟨tv, htv⟩ := htv
    have hrest : ∀ cond' ∈ rest, cond'.dependentConfigId = MODULE_TYPE
        ∨ cond'.dependentConfigId = MODULE_PLATFORM :=
      fun c' hc' => h c' (by simp [hc'])
    simp only [checkFiltersAux, htv]
    by_cases ht : tv.truthy = true
    · simp only [ht, Bool.not_true, Bool.false_eq_true, if_false]
      cases tv with
      | vdict kvs => exact ⟨_, rfl⟩
      | vnone =>
        cases hc : cond.check .vnone
        · exact ⟨false, by simp [hc]⟩
        · obtain ⟨b, hb⟩ := ih hrest
          exact ⟨b, by simp [hc, hb]⟩
      | vstr s =>
        cases hc : cond.check (.vstr s)
        · exact ⟨false, by simp [hc]⟩
        · obtain ⟨b, hb⟩ := ih hrest
          exact ⟨b, by simp [hc, hb]⟩
      | vlist l =>
        cases hc : cond.check (.vlist l)
        · exact ⟨false, by simp [hc]⟩
        · obtain ⟨b, hb⟩ := ih hrest
          exact ⟨b, by simp [hc, hb]⟩
    · have ht' : tv.truthy = false := by simpa using ht
      exact ⟨false, by rw [ht']; rfl⟩

theorem setValueList_filterConds :
    ∀ (l : List Configuration) (i : Nat) (v : Value) (c' : Configuration),
    c' ∈ setValueList l i v →
    ∃ c ∈ l, c'.filterConditions = c.filterConditions := by
  intro l
  induction l with
  | nil => intro i v c' h; simp [setValueList] at h
  | cons c rest ih =>
    intro i v c' h
    cases i with
    | zero =>
      rcases List.mem_cons.mp h with h1 | h1
      · exact ⟨c, by simp, by rw [h1]⟩
      · exact ⟨c', by simp [h1], rfl⟩
    | succ n =>
      rcases List.mem_cons.mp h with h1 | h1
      · exact ⟨c, by simp, by rw [h1]⟩
      · obtain ⟨c0, hc0, he⟩ := ih n v c' h1
        exact ⟨c0, by simp [hc0], he⟩

theorem prefill_filterConds (m : JsonModule) (lc : Option (List (String × Value)))
    (env : Option String) :
    ∀ c' ∈ (prefillConfigs m lc env).leanConfigs,
    ∃ c ∈ m.leanConfigs, c'.filterConditions = c.filterConditions := by
  intro c' h
  simp only [prefillConfigs, List.mem_map] at h
  obtain ⟨c, hc, he⟩ := h
  refine ⟨c, hc, ?_⟩
  rw [← he]
  cases hv : c.value <;> simp [hv]

theorem configBuildLoop_sentinel_ok (pF : Configuration → Value)
    (upoN propsN : List (String × Value)) (lc : Option (List (String × Value)))
    (env : Option String) (interactive : Bool) :
    ∀ (fuel : Nat) (st : JsonModule) (i : Nat) (acc : List String),
    (∀ c ∈ st.leanConfigs, ∀ cond ∈ c.filterConditions,
      cond.dependentConfigId = MODULE_TYPE ∨ cond.dependentConfigId = MODULE_PLATFORM) →
    ∃ r, configBuildLoop pF upoN propsN lc env interactive fuel st i acc = .ok r := by
  intro fuel
  induction fuel with
  | zero => intro st i acc _; exact ⟨_, rfl⟩
  | succ n ih =>
    intro st i acc hsent
    simp only [configBuildLoop]
    rcases hg : st.leanConfigs[i]? with _ | c
    · exact ⟨_, rfl⟩
    · have hcm : c ∈ st.leanConfigs := List.getElem?_mem hg
      obtain ⟨b, hb⟩ := checkFiltersAux_sentinel st c.filterConditions (hsent c hcm)
      have hb' : checkIfConfigPassesFilters st c false = .ok b := hb
      simp only [hb']
      cases b
      · exact ih st (i + 1) acc hsent
      · apply ih
        intro c' hc' cond hcond
        obtain ⟨c0, hc0, hfc⟩ :=
          setValueList_filterConds st.leanConfigs i
            (resolveEntry upoN propsN lc env interactive pF c).1 c' hc'
        exact hsent c0 hc0 cond (hfc ▸ hcond)

theorem settingsStep_warn_mono (m : JsonModule)
    (acc : List (String × String) × List String) (c : Configuration) :
    ∃ w', (settingsStep m acc c).2 = acc.2 ++ w' := by
  unfold settingsStep
  rcases hf : checkIfConfigPassesFilters m c false with e | b
  · exact ⟨[skipWarning c.id], rfl⟩
  · cases b
    · exact ⟨[], by simp⟩
    · rcases hk : c.kind with ⟨b2, opts⟩ | _ | _ | _ | _ <;>
        rcases hv : c.value with _ | s | kvs | l <;> exact ⟨[], by simp⟩

theorem settingsFold_warn_mono (m : JsonModule) :
    ∀ (l : List Configuration) (acc : List (String × String) × List String),
    ∃ w', (l.foldl (settingsStep m) acc).2 = acc.2 ++ w' := by
  intro l
  induction l with
  | nil => exact fun acc => ⟨[], by simp⟩
  | cons c rest ih =>
    intro acc
    obtain ⟨w0, hw0⟩ := settingsStep_warn_mono m acc c
    obtain ⟨w1, hw1⟩ := ih (settingsStep m acc c)
    exact ⟨w0 ++ w1, by simp [List.foldl_cons, hw1, hw0]⟩

theorem buildSettings_skip_warn (m : JsonModule) :
    ∀ (l : List Configuration) (acc : List (String × String) × List String)
      (c : Configuration),
    c ∈ l → checkIfConfigPassesFilters m c false = .error () →
    skipWarning c.id ∈ (l.foldl (settingsStep m) acc).2 := by
  intro l
  induction l with
  | nil => intro acc c h; simp at h
  | cons c0 rest ih =>
    intro acc c hmem herr
    rcases List.mem_cons.mp hmem with h1 | h1
    · subst h1
      obtain ⟨w', hw'⟩ := settingsFold_warn_mono m rest (settingsStep m acc c)
      rw [List.foldl_cons, hw']
      have hstep : (settingsStep m acc c).2 = acc.2 ++ [skipWarning c.id] := by
        simp only [settingsStep, herr]
      rw [hstep]
      simp
    · exact ih (settingsStep m acc c0) c h1 herr

/-- Claim C7 as stated is false for `config_build`: an entry whose filter
condition names a dependent id matching no entry makes
`get_config_value_from_name` raise, and nothing in `config_build` catches
it — the failure propagates to the caller instead of the entry being
treated as absent or skipped. -/
theorem c7_counterexample :
    getConfigValueFromName c7Module "nope" = .error ()
    ∧ configBuild c7Module (some []) false [] [] none nonePrompt
        = .error .lookupFailure := by
  exact ⟨rfl, rfl⟩

/-- Claim C7 (corrected): persisted-configuration read failures during
`config_build` are caught — on a module whose filters consult only the
module-type/platform sentinels, `config_build` never surfaces a lookup
failure, whatever the (possibly malformed) lean config; and in
`get_settings` a per-entry filter-lookup failure is caught, warned about
and the entry skipped, while a conditional option's dependent-entry lookup
failure falls back to the first-matching entry's value or `None`.  But a
filter-condition dependent-entry lookup failure inside `config_build`
propagates to the caller (see the counterexample). -/
theorem c7_lookup_failures_amended :
    (∀ (m : JsonModule) (lc : Option (List (String × Value)))
       (upo props : List (String × Value)) (env : Option String)
       (interactive : Bool) (pF : Configuration → Value),
      sentinelFiltersOnly m →
      configBuild m lc interactive upo props env pF ≠ .error .lookupFailure)
    ∧ (∀ (m : JsonModule) (c : Configuration),
        c ∈ (condPass m.leanConfigs.length m 0).1.leanConfigs →
        checkIfConfigPassesFilters (condPass m.leanConfigs.length m 0).1 c false
          = .error () →
        skipWarning c.id ∈ (getSettings m).warnings)
    ∧ (∀ (m : JsonModule) (d : String),
        getConfigValueFromName m d = .error () →
        evalOptionTarget m d
          = match m.leanConfigs.find? (fun c => c.id == d) with
            | some c => c.value
            | none => .vnone) := by
  refine ⟨?_, ?_, ?_⟩
  · intro m lc upo props env interactive pF hsent hcontra
    have hsent0 : ∀ c ∈ (prefillConfigs m lc env).leanConfigs,
        ∀ cond ∈ c.filterConditions,
        cond.dependentConfigId = MODULE_TYPE ∨ cond.dependentConfigId = MODULE_PLATFORM := by
      intro c' hc' cond hcond
      obtain ⟨c, hcm, hfc⟩ := prefill_filterConds m lc env c' hc'
      exact hsent c hcm cond (hfc ▸ hcond)
    obtain ⟨r, hr⟩ := configBuildLoop_sentinel_ok pF (normalizedOptionsMap upo)
      (normalizedOptionsMap props) lc env interactive
      (prefillConfigs m lc env).leanConfigs.length (prefillConfigs m lc env) 0 [] hsent0
    obtain ⟨st2, missing2⟩ := r
    simp only [configBuild, hr] at hcontra
    by_cases he : missing2.isEmpty = true <;> simp [he] at hcontra
  · intro m c hmem herr
    simp only [getSettings, buildSettings]
    have := buildSettings_skip_warn (condPass m.leanConfigs.length m 0).1
      (condPass m.leanConfigs.length m 0).1.leanConfigs
      ([("id", (condPass m.leanConfigs.length m 0).1.id)], []) c hmem herr
    simp [List.mem_append, this]
  · intro m d h
    simp only [evalOptionTarget, h]

/-- Witness for the amended C7 theorem: a sentinel-only module run against
a malformed lean config (whose `environments` value is `None`, so
`get_default` raises and is caught) never surfaces a lookup failure. -/
theorem c7_lookup_failures_amended_witness :
    configBuild c7WitnessModule (some [("environments", Value.vnone)]) false [] []
        (some "e") nonePrompt ≠ .error .lookupFailure :=
  c7_lookup_failures_amended.1 c7WitnessModule (some [("environments", Value.vnone)])
    [] [] (some "e") false nonePrompt (by simp only [sentinelFiltersOnly]; decide)

/-! ## Claim C8: relation toolkit -/

theorem cfgRel_refl (c : Configuration) : CfgRel c c :=
  ⟨rfl, rfl, rfl, rfl, rfl, fun _ => rfl⟩

theorem cfgRel_symm {c c' : Configuration} (h : CfgRel c c') : CfgRel c' c := by
  obtain ⟨h1, h2, h3, h4, h5, h6⟩ := h
  refine ⟨h1.symm, h2.symm, h3.symm, h4.symm, h5.symm, fun hnc => ?_⟩
  exact (h6 (by rw [h2]; exact hnc)).symm

theorem cfgRel_trans {a b c : Configuration} (h1 : CfgRel a b) (h2 : CfgRel b c) :
    CfgRel a c := by
  obtain ⟨a1, a2, a3, a4, a5, a6⟩ := h1
  obtain ⟨b1, b2, b3, b4, b5, b6⟩ := h2
  refine ⟨a1.trans b1, a2.trans b2, a3.trans b3, a4.trans b4, a5.trans b5, fun hnc => ?_⟩
  exact (a6 hnc).trans (b6 (by rw [← a2]; exact hnc))

theorem forall₂_cfgRel_refl (l : List Configuration) : List.Forall₂ CfgRel l l := by
  induction l with
  | nil => exact .nil
  | cons c rest ih => exact .cons (cfgRel_refl c) ih

theorem forall₂_cfgRel_symm {l l' : List Configuration}
    (h : List.Forall₂ CfgRel l l') : List.Forall₂ CfgRel l' l := by
  induction h with
  | nil => exact .nil
  | cons hc _ ih => exact .cons (cfgRel_symm hc) ih

theorem forall₂_cfgRel_trans {l1 l2 l3 : List Configuration}
    (h1 : List.Forall₂ CfgRel l1 l2) (h2 : List.Forall₂ CfgRel l2 l3) :
    List.Forall₂ CfgRel l1 l3 := by
  induction h1 generalizing l3 with
  | nil => cases h2; exact .nil
  | cons hc _ ih =>
    cases h2 with
    | cons hc' hrest' => exact .cons (cfgRel_trans hc hc') (ih hrest')

theorem modRel_refl (m : JsonModule) : ModRel m m :=
  ⟨rfl, rfl, rfl, rfl, forall₂_cfgRel_refl m.leanConfigs⟩

theorem modRel_symm {m m' : JsonModule} (h : ModRel m m') : ModRel m' m :=
  ⟨h.1.symm, h.2.1.symm, h.2.2.1.symm, h.2.2.2.1.symm, forall₂_cfgRel_symm h.2.2.2.2⟩

theorem modRel_trans {m1 m2 m3 : JsonModule} (h1 : ModRel m1 m2) (h2 : ModRel m2 m3) :
    ModRel m1 m3 :=
  ⟨h1.1.trans h2.1, h1.2.1.trans h2.2.1, h1.2.2.1.trans h2.2.2.1,
   h1.2.2.2.1.trans h2.2.2.2.1, forall₂_cfgRel_trans h1.2.2.2.2 h2.2.2.2.2⟩

theorem forall₂_get {R : Configuration → Configuration → Prop} :
    ∀ {l l' : List Configuration}, List.Forall₂ R l l' →
    ∀ {i : Nat} {b : Configuration}, l'[i]? = some b →
    ∃ a, l[i]? = some a ∧ R a b := by
  intro l l' h
  induction h with
  | nil => intro i b hb; simp at hb
  | cons hc hrest ih =>
    intro i b hb
    cases i with
    | zero =>
      simp only [List.getElem?_cons_zero, Option.some.injEq] at hb
      exact ⟨_, by simp, hb ▸ hc⟩
    | succ n =>
      simp only [List.getElem?_cons_succ] at hb ⊢
      exact ih hb

theorem forall₂_mem_right {R : Configuration → Configuration → Prop} :
    ∀ {l l' : List Configuration}, List.Forall₂ R l l' →
    ∀ c' ∈ l', ∃ c ∈ l, R c c' := by
  intro l l' h
  induction h with
  | nil => intro c' hc'; simp at hc'
  | cons hc _ ih =>
    intro c' hc'
    rcases List.mem_cons.mp hc' with h1 | h1
    · exact ⟨_, List.mem_cons_self _ _, by rw [h1]; exact hc⟩
    · obtain ⟨c, hcm, hr⟩ := ih c' h1
      exact ⟨c, List.mem_cons_of_mem _ hcm, hr⟩

theorem depOk_transport {l l' : List Configuration} (h : List.Forall₂ CfgRel l l')
    (d : String) (hd : ∀ c ∈ l, c.id = d → isCondKind c.kind = false) :
    ∀ c' ∈ l', c'.id = d → isCondKind c'.kind = false := by
  intro c' hc' hid
  obtain ⟨c, hcm, hr⟩ := forall₂_mem_right h c' hc'
  have := hd c hcm (hr.1.trans hid)
  rwa [hr.2.1] at this

theorem forall₂_filter_vals (d : String) :
    ∀ {l l' : List Configuration}, List.Forall₂ CfgRel l l' →
    (∀ c ∈ l, c.id = d → isCondKind c.kind = false) →
    ((l.filter (fun c => c.id == d)).map (fun c => c.value))
      = ((l'.filter (fun c => c.id == d)).map (fun c => c.value)) := by
  intro l l' h
  induction h with
  | nil => intro _; rfl
  | cons hc hrest ih =>
    intro hd
    rename_i a b l1 l2
    have htest : (a.id == d) = (b.id == d) := by rw [hc.1]
    have hd' : ∀ c ∈ l1, c.id = d → isCondKind c.kind = false :=
      fun c hcm hcid => hd c (by simp [hcm]) hcid
    by_cases hb : (a.id == d) = true
    · have hval : a.value = b.value := by
        apply hc.2.2.2.2.2
        exact hd a (by simp) (by simpa using hb)
      rw [List.filter_cons, List.filter_cons, hb, ← htest, hb]
      simp only [if_true, List.map_cons, hval, ih hd']
    · have hb' : (a.id == d) = false := by simpa using hb
      rw [List.filter_cons, List.filter_cons, hb', ← htest, hb']
      simpa using ih hd'

theorem getCfgVal_agree {m m' : JsonModule} (h : ModRel m m') (d : String)
    (hd : ∀ c ∈ m.leanConfigs, c.id = d → isCondKind c.kind = false) :
    getConfigValueFromName m d = getConfigValueFromName m' d := by
  have hv := forall₂_filter_vals d h.2.2.2.2 hd
  unfold getConfigValueFromName
  rcases hf : m.leanConfigs.filter (fun c => c.id == d) with _ | ⟨c, rest⟩
  · rw [hf] at hv
    have h0 : m'.leanConfigs.filter (fun c => c.id == d) = [] :=
      List.map_eq_nil_iff.mp hv.symm
    rw [hf, h0]
  · rw [hf] at hv
    rcases hf' : m'.leanConfigs.filter (fun c => c.id == d) with _ | ⟨c', rest'⟩
    · rw [hf'] at hv
      simp at hv
    · rw [hf'] at hv
      simp only [List.map_cons, List.cons.injEq] at hv
      rw [hf, hf']
      cases rest with
      | nil =>
        cases rest' with
        | nil => exact congrArg Except.ok hv.1
        | cons x xs => simp at hv
      | cons x xs =>
        cases rest' with
        | nil => simp at hv
        | cons y ys => rfl

theorem forall₂_find_vals (d : String) :
    ∀ {l l' : List Configuration}, List.Forall₂ CfgRel l l' →
    (∀ c ∈ l, c.id = d → isCondKind c.kind = false) →
    ((l.find? (fun c => c.id == d)).map (fun c => c.value))
      = ((l'.find? (fun c => c.id == d)).map (fun c => c.value)) := by
  intro l l' h
  induction h with
  | nil => intro _; rfl
  | cons hc hrest ih =>
    intro hd
    rename_i a b l1 l2
    have htest : (a.id == d) = (b.id == d) := by rw [hc.1]
    have hd' : ∀ c ∈ l1, c.id = d → isCondKind c.kind = false :=
      fun c hcm hcid => hd c (by simp [hcm]) hcid
    by_cases hb : (a.id == d) = true
    · have hval : a.value = b.value := by
        apply hc.2.2.2.2.2
        exact hd a (by simp) (by simpa using hb)
      have hb2 : (b.id == d) = true := htest ▸ hb
      simp only [List.find?, hb, hb2]
      simp [hval]
    · have hb' : (a.id == d) = false := by simpa using hb
      have hb2' : (b.id == d) = false := htest ▸ hb'
      simp only [List.find?, hb', hb2']
      exact ih hd'

theorem evalOptionTarget_agree {m m' : JsonModule} (h : ModRel m m') (d : String)
    (hd : ∀ c ∈ m.leanConfigs, c.id = d → isCondKind c.kind = false) :
    evalOptionTarget m d = evalOptionTarget m' d := by
  unfold evalOptionTarget
  rw [getCfgVal_agree h d hd]
  rcases hg : getConfigValueFromName m' d with e | v
  · have hfv := forall₂_find_vals d h.2.2.2.2 hd
    rcases hf : m.leanConfigs.find? (fun c => c.id == d) with _ | c
    · rw [hf] at hfv
      have h0 : m'.leanConfigs.find? (fun c => c.id == d) = none := by
        rcases hf' : m'.leanConfigs.find? (fun c => c.id == d) with _ | c'
        · exact hf'
        · rw [hf'] at hfv; simp at hfv
      rw [hf, h0]
    · rw [hf] at hfv
      rcases hf' : m'.leanConfigs.find? (fun c => c.id == d) with _ | c'
      · rw [hf'] at hfv; simp at hfv
      · rw [hf'] at hfv
        simp at hfv
        rw [hf, hf']
        exact hfv
  · rfl

theorem findMatchedOption_agree {m m' : JsonModule} :
    ∀ opts : List ValueOption,
    (∀ opt ∈ opts, evalOptionTarget m opt.condition.dependentConfigId
      = evalOptionTarget m' opt.condition.dependentConfigId) →
    findMatchedOption m opts = findMatchedOption m' opts := by
  intro opts
  induction opts with
  | nil => intro _; rfl
  | cons opt rest ih =>
    intro h
    simp only [findMatchedOption]
    rw [h opt (by simp), ih (fun o ho => h o (by simp [ho]))]

theorem forall₂_setValue :
    ∀ {l l' : List Configuration}, List.Forall₂ CfgRel l l' →
    ∀ {i : Nat} {c' : Configuration}, l'[i]? = some c' → isCondKind c'.kind = true →
    ∀ v, List.Forall₂ CfgRel l (setValueList l' i v) := by
  intro l l' h
  induction h with
  | nil => intro i c' hc'; simp at hc'
  | cons hc hrest ih =>
    intro i c' hc' hcond v
    cases i with
    | zero =>
      simp only [List.getElem?_cons_zero, Option.some.injEq] at hc'
      subst hc'
      refine .cons ?_ hrest
      obtain ⟨h1, h2, h3, h4, h5, h6⟩ := hc
      refine ⟨h1, h2, h3, h4, h5, fun hnc => ?_⟩
      rw [h2] at hnc
      rw [hnc] at hcond
      cases hcond
    | succ n =>
      simp only [List.getElem?_cons_succ] at hc'
      exact .cons hc (ih hc' hcond v)

theorem condStep_rel {m0 m : JsonModule} (h : ModRel m0 m) (i : Nat) :
    ModRel m0 (condStep m i).1 := by
  rcases hg : m.leanConfigs[i]? with _ | c
  · simpa [condStep, hg] using h
  · simp only [condStep, hg]
    rcases hk : c.kind with ⟨bc, opts⟩ | _ | _ | _ | _ <;> simp only [condStepEntry, hk]
    · cases bc
      · exact h
      · have hcond : isCondKind c.kind = true := by rw [hk]; rfl
        rcases hm : findMatchedOption m opts with _ | v <;> simp only [hm]
        · exact ⟨h.1, h.2.1, h.2.2.1, h.2.2.2.1,
            forall₂_setValue h.2.2.2.2 hg hcond _⟩
        · exact ⟨h.1, h.2.1, h.2.2.1, h.2.2.2.1,
            forall₂_setValue h.2.2.2.2 hg hcond _⟩
    · exact h
    · exact h
    · exact h
    · exact h

theorem condPass_rel {m0 : JsonModule} :
    ∀ (fuel : Nat) {m : JsonModule} (i : Nat), ModRel m0 m →
    ModRel m0 (condPass fuel m i).1 := by
  intro fuel
  induction fuel with
  | zero => intro m i h; exact h
  | succ n ih =>
    intro m i h
    simp only [condPass]
    exact ih (i + 1) (condStep_rel h i)

theorem setValueList_same :
    ∀ (l : List Configuration) (i : Nat) (c : Configuration),
    l[i]? = some c → ∀ v, c.value = v → setValueList l i v = l := by
  intro l
  induction l with
  | nil => intro i c h; simp at h
  | cons c0 rest ih =>
    intro i c h v hv
    cases i with
    | zero =>
      simp only [List.getElem?_cons_zero, Option.some.injEq] at h
      subst h
      rw [← hv]
      rfl
    | succ n =>
      simp only [List.getElem?_cons_succ] at h
      simp only [setValueList]
      rw [ih n c h v hv]

theorem stepFix_of_ge (m : JsonModule) (j : Nat) (h : m.leanConfigs.length ≤ j) :
    (condStep m j).1 = m := by
  have hg : m.leanConfigs[j]? = none := List.getElem?_eq_none h
  simp [condStep, hg]

theorem condPass_of_stepFix :
    ∀ (fuel : Nat) (m : JsonModule) (i : Nat), StepFix m →
    (condPass fuel m i).1 = m := by
  intro fuel
  induction fuel with
  | zero => intro m i _; rfl
  | succ n ih =>
    intro m i h
    simp only [condPass]
    rw [h i]
    exact ih m (i + 1) h

theorem noCondDepsB_spec (m : JsonModule) (h : noCondDepsB m = true) :
    ∀ c ∈ m.leanConfigs, ∀ opts : List ValueOption,
    c.kind = .internalInput true opts →
    ∀ opt ∈ opts, ∀ c' ∈ m.leanConfigs,
    c'.id = opt.condition.dependentConfigId → isCondKind c'.kind = false := by
  simp only [noCondDepsB, List.all_eq_true] at h
  intro c hc opts hk opt hopt c' hc' hid
  have h1 := h c hc
  rw [hk] at h1
  simp only [List.all_eq_true] at h1
  have h2 := h1 opt hopt c' hc'
  rw [hid] at h2
  simpa using h2

theorem matchEmpty_idem (w : Value) :
    (match (match w with | Value.vnone => Value.vstr "" | x => x) with
      | Value.vnone => Value.vstr "" | x => x)
      = (match w with | Value.vnone => Value.vstr "" | x => x) := by
  cases w <;> rfl

/-- Every index processed by a completed conditional pass is a fixed point
of `condStep` on the resulting state, provided no conditional entry's
option depends on a conditional entry: the dependent values a re-run would
read are unchanged, so re-evaluating any entry stores the value it already
holds. -/
theorem condPass_covers (m0 : JsonModule)
    (hdeps : ∀ c ∈ m0.leanConfigs, ∀ opts : List ValueOption,
      c.kind = .internalInput true opts →
      ∀ opt ∈ opts, ∀ c' ∈ m0.leanConfigs,
      c'.id = opt.condition.dependentConfigId → isCondKind c'.kind = false) :
    ∀ (fuel : Nat) (m : JsonModule) (i : Nat), ModRel m0 m →
    ∀ j, i ≤ j → j < i + fuel →
    (condStep (condPass fuel m i).1 j).1 = (condPass fuel m i).1 := by
  intro fuel
  induction fuel with
  | zero => intro m i _ j h1 h2; omega
  | succ n ih =>
    intro m i hR j h1 h2
    have hR1 : ModRel m0 (condStep m i).1 := condStep_rel hR i
    have hpassdef : (condPass (n + 1) m i).1 = (condPass n (condStep m i).1 (i + 1)).1 := by
      simp only [condPass]
    by_cases hji : j = i
    · subst hji
      rw [hpassdef]
      set M' := (condPass n (condStep m j).1 (j + 1)).1 with hM'def
      have hRM' : ModRel m0 M' := condPass_rel n (j + 1) hR1
      have hMM' : ModRel m M' := modRel_trans (modRel_symm hR) hRM'
      have hpres : M'.leanConfigs[j]? = (condStep m j).1.leanConfigs[j]? :=
        condPass_get_lt n (condStep m j).1 (j + 1) j (by omega)
      clear hM'def
      rcases hg : m.leanConfigs[j]? with _ | c
      · have hS1 : condStep m j = (m, []) := by simp [condStep, hg]
        have hnone : M'.leanConfigs[j]? = none := by
          rw [hpres, hS1]
          exact hg
        simp [condStep, hnone]
      · rcases hk : c.kind with ⟨bc, opts⟩ | _ | _ | _ | _
        · cases bc
          -- internalInput false: not conditional, condStep is the identity
          · have hS1 : condStep m j = (m, []) := by
              simp [condStep, hg, condStepEntry, hk]
            have hMj : M'.leanConfigs[j]? = some c := by
              rw [hpres, hS1]
              exact hg
            simp [condStep, hMj, condStepEntry, hk]
          -- internalInput true: the conditional case proper
          · have hdepsOk : ∀ opt ∈ opts, ∀ c' ∈ m.leanConfigs,
                c'.id = opt.condition.dependentConfigId → isCondKind c'.kind = false := by
              obtain ⟨c0, hc0g, hc0r⟩ := forall₂_get hR.2.2.2.2 hg
              have hc0mem : c0 ∈ m0.leanConfigs := List.getElem?_mem hc0g
              have hkind0 : c0.kind = .internalInput true opts := by rw [hc0r.2.1, hk]
              intro opt hopt
              exact depOk_transport hR.2.2.2.2 _ (hdeps c0 hc0mem opts hkind0 opt hopt)
            have hagree : ∀ opt ∈ opts,
                evalOptionTarget m opt.condition.dependentConfigId
                  = evalOptionTarget M' opt.condition.dependentConfigId := by
              intro opt hopt
              exact evalOptionTarget_agree hMM' _ (hdepsOk opt hopt)
            have hfind : findMatchedOption M' opts = findMatchedOption m opts :=
              (findMatchedOption_agree opts hagree).symm
            rcases hfm : findMatchedOption m opts with _ | v
            · have hS1 : condStep m j
                  = (setValueAt m j (match c.value with | .vnone => .vstr "" | w => w),
                     [noMatchWarning c.id]) := by
                simp only [condStep, hg, condStepEntry, hk, hfm]
              have hMj : M'.leanConfigs[j]?
                  = some { c with
                           value := match c.value with | .vnone => .vstr "" | w => w } := by
                rw [hpres, hS1]
                simp only [setValueAt, setValueList_get_self, hg]
                rfl
              have hfind' : findMatchedOption M' opts = none := by
                rw [hfind, hfm]
              simp only [condStep, hMj, condStepEntry, hk, hfind']
              rw [matchEmpty_idem c.value]
              have hset := setValueList_same M'.leanConfigs j _ hMj
                (match c.value with | .vnone => .vstr "" | w => w) rfl
              simp [setValueAt, hset]
            · have hS1 : condStep m j = (setValueAt m j v, []) := by
                simp only [condStep, hg, condStepEntry, hk, hfm]
              have hMj : M'.leanConfigs[j]? = some { c with value := v } := by
                rw [hpres, hS1]
                simp only [setValueAt, setValueList_get_self, hg]
                rfl
              have hfind' : findMatchedOption M' opts = some v := by
                rw [hfind, hfm]
              simp only [condStep, hMj, condStepEntry, hk, hfind']
              have hset := setValueList_same M'.leanConfigs j _ hMj v rfl
              simp [setValueAt, hset]
        · have hS1 : condStep m j = (m, []) := by
            simp [condStep, hg, condStepEntry, hk]
          have hMj : M'.leanConfigs[j]? = some c := by
            rw [hpres, hS1]
            exact hg
          simp [condStep, hMj, condStepEntry, hk]
        · have hS1 : condStep m j = (m, []) := by
            simp [condStep, hg, condStepEntry, hk]
          have hMj : M'.leanConfigs[j]? = some c := by
            rw [hpres, hS1]
            exact hg
          simp [condStep, hMj, condStepEntry, hk]
        · have hS1 : condStep m j = (m, []) := by
            simp [condStep, hg, condStepEntry, hk]
          have hMj : M'.leanConfigs[j]? = some c := by
            rw [hpres, hS1]
            exact hg
          simp [condStep, hMj, condStepEntry, hk]
        · have hS1 : condStep m j = (m, []) := by
            simp [condStep, hg, condStepEntry, hk]
          have hMj : M'.leanConfigs[j]? = some c := by
            rw [hpres, hS1]
            exact hg
          simp [condStep, hMj, condStepEntry, hk]
    · rw [hpassdef]
      exact ih (condStep m i).1 (i + 1) hR1 j (by omega) (by omega)

/-- Claim C8 as stated is false: in `c8Module`, conditional entry `A`
depends on conditional entry `B`.  The first `get_settings` call evaluates
`A` against `B = None` (no match, `A` becomes `""`) and then sets `B` to
`""`; the second call re-evaluates `A` against `B = ""`, matches, and
stores `"X"` — the two settings maps differ. -/
theorem c8_counterexample :
    (getSettings c8Module).settings = [("id", "m8"), ("A", ""), ("B", "")]
    ∧ (getSettings (getSettings c8Module).module).settings
        = [("id", "m8"), ("A", "X"), ("B", "")]
    ∧ (getSettings (getSettings c8Module).module).settings
        ≠ (getSettings c8Module).settings := by
  refine ⟨rfl, rfl, ?_⟩
  decide

/-- Claim C8 (corrected): calling `get_settings()` twice without
intervening mutation yields identical settings maps provided no
conditional entry's option condition names a conditional entry as its
dependency; the counterexample shows the claim fails without this proviso
(the first call's writes to conditional value slots can change what a
second call's option conditions read). -/
theorem c8_idempotent_amended (m : JsonModule) (h : noCondDepsB m = true) :
    (getSettings (getSettings m).module).settings = (getSettings m).settings := by
  have hdeps := noCondDepsB_spec m h
  have hfix : StepFix (condPass m.leanConfigs.length m 0).1 := by
    intro j
    by_cases hj : j < m.leanConfigs.length
    · exact condPass_covers m hdeps m.leanConfigs.length m 0 (modRel_refl m) j
        (by omega) (by omega)
    · exact stepFix_of_ge _ j (by rw [condPass_length]; omega)
  have hM := condPass_of_stepFix
    (condPass m.leanConfigs.length m 0).1.leanConfigs.length
    (condPass m.leanConfigs.length m 0).1 0 hfix
  simp only [getSettings]
  rw [hM]

/-- Witness for the amended C8 theorem: a conditional entry depending on a
plain entry satisfies the hypothesis and `get_settings` is idempotent on
it. -/
theorem c8_idempotent_amended_witness :
    (getSettings (getSettings c8WitnessModule).module).settings
      = (getSettings c8WitnessModule).settings :=
  c8_idempotent_amended c8WitnessModule (by decide)

/-! ## Claim C5 -/

theorem checkFiltersAux_eq_amended (m : JsonModule) :
    ∀ conds : List Condition,
    checkFiltersAux m false conds = filterGateAmended m conds := by
  intro conds
  induction conds with
  | nil => rfl
  | cons cond rest ih =>
    simp only [checkFiltersAux, filterGateAmended]
    rcases h : condTarget m false cond with e | o
    · rfl
    · rcases o with _ | tv
      · exact ih
      · by_cases ht : tv.truthy = true
        · simp only [ht, Bool.not_true, Bool.false_eq_true, if_false, if_true]
          cases tv with
          | vnone => by_cases hc : cond.check .vnone = true <;> simp [hc, ih]
          | vstr s => by_cases hc : cond.check (.vstr s) = true <;> simp [hc, ih]
          | vdict kvs => rfl
          | vlist l => by_cases hc : cond.check (.vlist l) = true <;> simp [hc, ih]
        · have ht' : tv.truthy = false := by
            cases htv : tv.truthy
            · rfl
            · exact absurd htv ht
          simp only [ht', Bool.not_false, if_true, Bool.false_eq_true, if_false]

/-- Claim C5 as stated is false: in `c5Module`, entry `e`'s filter has a
mapping-target condition followed by a second condition that fails (its
predicate is constantly false on the truthy module type), yet the filter
gate reports the entry active — the mapping case returns early and the
remaining conditions are never evaluated. -/
theorem c5_counterexample :
    checkIfConfigPassesFilters c5Module c5EntryE false = .ok true
    ∧ ¬ (c5EntryE.filterConditions.all (specConditionPassesB c5Module) = true) := by
  constructor
  · rfl
  · decide

/-- Claim C5 (corrected): all conditions evaluated before a mapping-valued
target must pass (an absent/falsy target or a failing scalar predicate
short-circuits to inactive), and a condition whose target value is a
mapping holds only if its predicate holds for all values in the mapping —
but such a condition decides the whole filter by itself: the gate returns
its verdict immediately and any later conditions are not consulted.  The
code gate coincides with `filterGateAmended`, the recursion written from
this amended wording. -/
theorem c5_filter_gate_amended (m : JsonModule) :
    (∀ c : Configuration,
      checkIfConfigPassesFilters m c false = filterGateAmended m c.filterConditions)
    ∧ (∀ (cond : Condition) (rest : List Condition) (tv : Value),
        condTarget m false cond = .ok (some tv) → tv.truthy = false →
        checkFiltersAux m false (cond :: rest) = .ok false)
    ∧ (∀ (cond : Condition) (rest : List Condition) (tv : Value),
        condTarget m false cond = .ok (some tv) → tv.truthy = true →
        (∀ kvs, tv ≠ .vdict kvs) → cond.check tv = false →
        checkFiltersAux m false (cond :: rest) = .ok false)
    ∧ (∀ (cond : Condition) (rest : List Condition) (kvs : List (String × Value)),
        condTarget m false cond = .ok (some (.vdict kvs)) →
        (Value.vdict kvs).truthy = true →
        checkFiltersAux m false (cond :: rest) = .ok (kvs.all fun kv => cond.check kv.2)) := by
  refine ⟨fun c => checkFiltersAux_eq_amended m c.filterConditions, ?_, ?_, ?_⟩
  · intro cond rest tv h ht
    simp only [checkFiltersAux, h, ht, Bool.not_false, if_true]
  · intro cond rest tv h ht hnd hc
    simp only [checkFiltersAux, h, ht, Bool.not_true, Bool.false_eq_true, if_false]
    cases tv with
    | vnone => simp [hc]
    | vstr s => simp [hc]
    | vdict kvs => exact absurd rfl (hnd kvs)
    | vlist l => simp [hc]
  · intro cond rest kvs h ht
    simp only [checkFiltersAux, h, ht, Bool.not_true, Bool.false_eq_true, if_false]

/-- Witness for the amended C5 theorem: a falsy target (empty module type)
fails closed at a concrete input. -/
theorem c5_filter_gate_amended_witness :
    checkFiltersAux c5WitnessModule false [c5WitnessCond] = .ok false :=
  (c5_filter_gate_amended c5WitnessModule).2.1 c5WitnessCond [] (.vstr "") rfl rfl

/-! ## Claim C6 -/

/-- Claim C6 as stated is false on its second case: with existing value
`["A"]` and override `""` for the list-like key, the merged result is
`["A"]` (the parsed empty override is unioned into the existing list), not
`[]` as claimed. -/
theorem c6_counterexample :
    updatedValueAt (updateSettings jsonLoadsModel (some "env") c6Target
        (c6LeanConfig (.vstr ""))) "data-queue-handler"
      = some (.vlist [.vstr "A"])
    ∧ updatedValueAt (updateSettings jsonLoadsModel (some "env") c6Target
        (c6LeanConfig (.vstr ""))) "data-queue-handler"
      ≠ some (.vlist []) := by
  constructor
  · decide
  · decide

/-- Claim C6 (corrected): with existing value `["A"]`, override `"A, B"`
merges to `["A","B"]` and override `'["B","C"]'` merges to
`["A","B","C"]`, as claimed; but override `""` parses to the empty
sequence and the union with the existing list leaves `["A"]` unchanged —
it does not produce `[]`. -/
theorem c6_list_merge_amended (loads : String → Option Value)
    (hAB : loads "A, B" = none)
    (hBC : loads "[\"B\",\"C\"]" = some (.vlist [.vstr "B", .vstr "C"])) :
    updatedValueAt (updateSettings loads (some "env") c6Target
        (c6LeanConfig (.vstr "A, B"))) "data-queue-handler"
      = some (.vlist [.vstr "A", .vstr "B"])
    ∧ updatedValueAt (updateSettings loads (some "env") c6Target
        (c6LeanConfig (.vstr ""))) "data-queue-handler"
      = some (.vlist [.vstr "A"])
    ∧ updatedValueAt (updateSettings loads (some "env") c6Target
        (c6LeanConfig (.vstr "[\"B\",\"C\"]"))) "data-queue-handler"
      = some (.vlist [.vstr "A", .vstr "B", .vstr "C"]) := by
  refine ⟨?_, by rfl, ?_⟩
  · have h1 : parseOverride loads (Value.vstr "A, B") = [Value.vstr "A", Value.vstr "B"] := by
      simp only [parseOverride]
      rw [hAB]
      decide
    have hm : processPair loads c6Target "data-queue-handler" (Value.vstr "A, B")
        = .ok (alInsert c6Target "data-queue-handler"
            (.vlist (dedupKeepFirst
              ([Value.vstr "A"] ++ parseOverride loads (Value.vstr "A, B"))))) :=
      processPair_merge_ok loads c6Target "data-queue-handler" (Value.vstr "A, B")
        [Value.vstr "A"] (by decide) (by decide) (by decide) (by rw [h1]; decide)
    have h2 : updateSettings loads (some "env") c6Target (c6LeanConfig (.vstr "A, B"))
        = .ok (alInsert c6Target "data-queue-handler"
            (.vlist (dedupKeepFirst
              ([Value.vstr "A"] ++ parseOverride loads (Value.vstr "A, B"))))) := by
      show updateFold loads [("data-queue-handler", Value.vstr "A, B")] c6Target = _
      simp only [updateFold, hm]
    rw [h2, h1]
    decide
  · have h1 : parseOverride loads (Value.vstr "[\"B\",\"C\"]")
        = [Value.vstr "B", Value.vstr "C"] := by
      simp only [parseOverride]
      rw [hBC]
      decide
    have hm : processPair loads c6Target "data-queue-handler" (Value.vstr "[\"B\",\"C\"]")
        = .ok (alInsert c6Target "data-queue-handler"
            (.vlist (dedupKeepFirst
              ([Value.vstr "A"] ++ parseOverride loads (Value.vstr "[\"B\",\"C\"]"))))) :=
      processPair_merge_ok loads c6Target "data-queue-handler" (Value.vstr "[\"B\",\"C\"]")
        [Value.vstr "A"] (by decide) (by decide) (by decide) (by rw [h1]; decide)
    have h2 : updateSettings loads (some "env") c6Target
          (c6LeanConfig (.vstr "[\"B\",\"C\"]"))
        = .ok (alInsert c6Target "data-queue-handler"
            (.vlist (dedupKeepFirst
              ([Value.vstr "A"] ++ parseOverride loads (Value.vstr "[\"B\",\"C\"]"))))) := by
      show updateFold loads [("data-queue-handler", Value.vstr "[\"B\",\"C\"]")] c6Target = _
      simp only [updateFold, hm]
    rw [h2, h1]
    decide

/-- Witness for the amended C6 theorem at the concrete JSON parser model.
-/
theorem c6_list_merge_amended_witness :
    updatedValueAt (updateSettings jsonLoadsModel (some "env") c6Target
        (c6LeanConfig (.vstr "A, B"))) "data-queue-handler"
      = some (.vlist [.vstr "A", .vstr "B"])
    ∧ updatedValueAt (updateSettings jsonLoadsModel (some "env") c6Target
        (c6LeanConfig (.vstr ""))) "data-queue-handler"
      = some (.vlist [.vstr "A"])
    ∧ updatedValueAt (updateSettings jsonLoadsModel (some "env") c6Target
        (c6LeanConfig (.vstr "[\"B\",\"C\"]"))) "data-queue-handler"
      = some (.vlist [.vstr "A", .vstr "B", .vstr "C"]) :=
  c6_list_merge_amended jsonLoadsModel (by decide) (by decide)

/-- Witness for the amended C10 theorem at concrete inputs: a string
override merges with the existing list preserved as a prefix, and an
override holding a dict element makes the update abort. -/
theorem c10_merge_preserves_amended_witness :
    (∃ t', updateSettings jsonLoadsModel (some "env")
        [("data-queue-handler", Value.vlist [Value.vstr "A"])]
        (c6LeanConfig (.vstr "B")) = .ok t'
      ∧ (∃ s, alFind t' "data-queue-handler"
          = some (.vlist (dedupKeepFirst [Value.vstr "A"] ++ s)))
      ∧ ([Value.vstr "A"].Nodup →
          ∃ s, alFind t' "data-queue-handler" = some (.vlist ([Value.vstr "A"] ++ s))))
    ∧ updateSettings jsonLoadsModel (some "env")
        [("data-queue-handler", Value.vlist [Value.vstr "A"])]
        (c6LeanConfig (.vlist [.vdict [("a", .vstr "1")]])) = .error () := by
  constructor
  · exact (c10_merge_preserves_amended jsonLoadsModel (some "env")
      (c6LeanConfig (.vstr "B")) [("data-queue-handler", Value.vlist [Value.vstr "A"])]
      [("data-queue-handler", Value.vstr "B")] "data-queue-handler" [Value.vstr "A"]
      (Value.vstr "B") (by decide) (by decide) (by decide) (by decide) (by decide)
      (by decide)).1 (by decide)
  · exact (c10_merge_preserves_amended jsonLoadsModel (some "env")
      (c6LeanConfig (.vlist [.vdict [("a", .vstr "1")]]))
      [("data-queue-handler", Value.vlist [Value.vstr "A"])]
      [("data-queue-handler", Value.vlist [.vdict [("a", .vstr "1")]])]
      "data-queue-handler" [Value.vstr "A"]
      (Value.vlist [.vdict [("a", .vstr "1")]]) (by decide) (by decide) (by decide)
      (by decide) (by decide) (by decide)).2 (by decide)

end LeanCli
